import Mathlib

/-!
Verification of the reference-identity and definition-point resolution engine
of the govar pretty-printer (files `references.go`, `reflect_helpers.go`, and
the renderer entry points of the main dumper file).

The Go value graph is shallowly embedded as a finite list of cells.  A cell
models what `reflect.Value` exposes to this engine: its dynamic type, whether
the value is addressable (`CanAddr`), its machine address (meaningful only
when addressable), whether it can be converted to an interface
(`CanInterface`, i.e. it is an exported field or `tryExport` recovers it),
and its content.  A `reflect.Value` occurrence is an `Option NodeId`
(`none` is the invalid zero `reflect.Value`).  Pointers and interfaces point
at other cells; pointees are addressable cells, exactly as in Go.  Map
entries are stored in the order `sortMapKeys` yields, so the stable map key
sorting of the source is modelled by the stored order.

Go maps held in the `Dumper` are modelled as association lists in insertion
order; mutation of `*RefStats` in place becomes read-modify-write.  All
loops of the source (`deref`, BFS queues, union-find with path compression,
the renderer) are modelled with an explicit fuel argument so that every
definition is a computable structural recursion; exhausted fuel corresponds
to the non-termination the Go code would exhibit on the pathological inputs
(e.g. a recursively defined pointer type), and is observable (`Snap.bottom`,
`REvent.fuelOut`) so that theorems about terminating runs are genuine.
-/

namespace Govar

/-- Kind of a value, mirroring the `reflect.Kind`s this engine distinguishes.
`int_`, `str` and `bool_` stand for Go's primitive scalar kinds. -/
inductive GoKind where
  | invalid
  | ptr
  | iface
  | struct_
  | array
  | slice
  | map_
  | chan
  | func_
  | int_
  | str
  | bool_
deriving DecidableEq, Repr

/-- A `reflect.Type` as this engine consumes it: `name` models `Type.String()`
(used when sorting reference IDs), `size` models `Type.Size()` (used for the
zero-sized-struct exclusion in `unifyAllCopies`). -/
structure GoType where
  name : String
  size : Nat
deriving DecidableEq, Repr

/-- A primitive scalar value (the payload of Go's bool/number/string kinds). -/
inductive PrimVal where
  | i (n : Int)
  | s (v : String)
  | b (v : Bool)
deriving DecidableEq, Repr

/-- Identifier of a cell in the value graph. -/
abbrev NodeId := Nat

/-- Content of a storage cell.  `none` targets/handles are Go `nil`. -/
inductive Content where
  | prim (v : PrimVal)
  | ptr (target : Option NodeId)
  | iface (inner : Option NodeId)
  | struct_ (fields : List NodeId)
  | array (elems : List NodeId)
  | slice (handle : Option Nat) (elems : List NodeId)
  | map_ (handle : Option Nat) (entries : List (NodeId × NodeId))
  | chan (handle : Option Nat)
  | func_ (handle : Option Nat)
deriving DecidableEq, Repr

/-- One storage cell of the embedded value graph. -/
structure Cell where
  ty : GoType
  canAddr : Bool
  addr : Nat
  canInterface : Bool
  content : Content
deriving DecidableEq, Repr

/-- The embedded value graph. -/
structure Graph where
  cells : List Cell
deriving Repr

/-- Look up the cell of an occurrence; `none` for the invalid value. -/
def Graph.cellOf (g : Graph) (v : Option NodeId) : Option Cell :=
  match v with
  | none => none
  | some i => g.cells.get? i

/-- Kind of a content. -/
def Content.kind : Content → GoKind
  | .prim (.i _) => .int_
  | .prim (.s _) => .str
  | .prim (.b _) => .bool_
  | .ptr _ => .ptr
  | .iface _ => .iface
  | .struct_ _ => .struct_
  | .array _ => .array
  | .slice _ _ => .slice
  | .map_ _ _ => .map_
  | .chan _ => .chan
  | .func_ _ => .func_

/-- `v.Kind()`; `invalid` for the invalid value. -/
def kindOf (g : Graph) (v : Option NodeId) : GoKind :=
  match g.cellOf v with
  | none => .invalid
  | some c => c.content.kind

/-- `v.IsValid()`. -/
def isValidV (g : Graph) (v : Option NodeId) : Bool :=
  (g.cellOf v).isSome

/-- Source `isPrimitiveKind` (reflect_helpers.go): bool, numbers, string. -/
def isPrimitiveKind : GoKind → Bool
  | .int_ => true
  | .str => true
  | .bool_ => true
  | _ => false

/-- Source `isCompositeOrInterface` (reflect_helpers.go). -/
def isCompositeOrInterface : GoKind → Bool
  | .struct_ => true
  | .map_ => true
  | .slice => true
  | .array => true
  | .iface => true
  | _ => false

/-- Nil-ness of a nilable content (`reflect.Value.IsNil`). -/
def Content.isNilC : Content → Bool
  | .ptr none => true
  | .iface none => true
  | .slice none _ => true
  | .map_ none _ => true
  | .chan none => true
  | .func_ none => true
  | _ => false

/-- Source `isNil` (reflect_helpers.go): invalid values count as nil, nilable
kinds report `IsNil`, everything else is not nil. -/
def isNilV (g : Graph) (v : Option NodeId) : Bool :=
  match g.cellOf v with
  | none => true
  | some c => c.content.isNilC

/-- Source `deref` (reflect_helpers.go): repeatedly dereference pointers and
interfaces; a nil pointer/interface yields the invalid value.  The fuel
bounds the chain length; a pointer-typed cycle (Go: non-termination) yields
the invalid value once the fuel is exhausted. -/
def derefN (g : Graph) : Nat → Option NodeId → Option NodeId
  | 0, _ => none
  | fuel + 1, v =>
    match g.cellOf v with
    | none => none
    | some c =>
      match c.content with
      | .ptr none => none
      | .ptr (some t) => derefN g fuel (some t)
      | .iface none => none
      | .iface (some t) => derefN g fuel (some t)
      | _ => v

/-- `deref` with fuel sufficient for every non-cyclic pointer chain. -/
def deref (g : Graph) (v : Option NodeId) : Option NodeId :=
  derefN g (g.cells.length + 1) v

/-- Source `isPointerRef` (reflect_helpers.go): a pointer, or an interface
holding (recursively) a pointer. -/
def isPointerRefN (g : Graph) : Nat → Option NodeId → Bool
  | 0, _ => false
  | fuel + 1, v =>
    match g.cellOf v with
    | none => false
    | some c =>
      match c.content with
      | .ptr _ => true
      | .iface none => false
      | .iface (some t) => isPointerRefN g fuel (some t)
      | _ => false

/-- `isPointerRef` with graph-sized fuel. -/
def isPointerRef (g : Graph) (v : Option NodeId) : Bool :=
  isPointerRefN g (g.cells.length + 1) v

/-- The pointer-counting loop of `getIndirectionLevel`: count `Ptr` hops,
incrementing once more on a nil pointer before stopping. -/
def indirLoop (g : Graph) : Nat → Option NodeId → Nat → Nat
  | 0, _, lvl => lvl
  | fuel + 1, v, lvl =>
    match g.cellOf v with
    | none => lvl
    | some c =>
      match c.content with
      | .ptr none => lvl + 1
      | .ptr (some t) => indirLoop g fuel (some t) (lvl + 1)
      | _ => lvl

/-- Source `getIndirectionLevel` (reflect_helpers.go): unwrap interfaces
(returning 0 on a nil interface), then count pointer indirections. -/
def getIndirectionLevelN (g : Graph) : Nat → Option NodeId → Nat
  | 0, _ => 0
  | fuel + 1, v =>
    match g.cellOf v with
    | none => 0
    | some c =>
      match c.content with
      | .iface none => 0
      | .iface (some t) => getIndirectionLevelN g fuel (some t)
      | _ => indirLoop g (g.cells.length + 1) v 0

/-- `getIndirectionLevel` with graph-sized fuel. -/
def getIndirectionLevel (g : Graph) (v : Option NodeId) : Nat :=
  getIndirectionLevelN g (g.cells.length + 1) v

/-- Whether `tryExport` yields an interfaceable value: exported values are
directly interfaceable, and addressable unexported values are recovered via
`unsafe` (reflect_helpers.go, `tryExport`). -/
def exportOK (c : Cell) : Bool :=
  c.canInterface || c.canAddr

/-! ### Value snapshots and fingerprints

`getOrCreateStats` stores `exportedV.Interface()` in `RefStats.value`;
`unifyAllCopies` later fingerprints it with `fmt.Sprintf("%#v", ...)`.
A `Snap` is the deep copy that boxing takes at scan time: struct, array,
slice and map contents are captured recursively, while nested pointers are
captured as typed addresses (which is exactly how `%#v` prints them), and
unexported inaccessible values are captured as the literal string
`"<unexported>"`, again as in the source. -/

/-- Snapshot of a boxed value. -/
inductive Snap where
  | nilS
  | unexported
  | bottom
  | prim (ty : GoType) (v : PrimVal)
  | ptrV (ty : GoType) (addr : Option Nat)
  | structS (ty : GoType) (fields : List Snap)
  | arrayS (ty : GoType) (elems : List Snap)
  | sliceS (ty : GoType) (elems : Option (List Snap))
  | mapS (ty : GoType) (entries : Option (List Snap))
  | chanS (ty : GoType) (h : Option Nat)
  | funcS (ty : GoType) (h : Option Nat)
deriving Repr

/-- Address printed for a pointer target (the pointee's address). -/
def targetAddr (g : Graph) (t : NodeId) : Nat :=
  match g.cells.get? t with
  | some c => c.addr
  | none => 0

/-- Deep-copy a list of cells into snapshots.  A single fuel argument bounds
the total number of visited nodes (structural recursion); exhausting it
(only possible on a value graph that is cyclic without passing through a
pointer, where `%#v` would not terminate either) yields truncation. -/
def snapL (g : Graph) : Nat → List NodeId → List Snap
  | 0, _ => []
  | _ + 1, [] => []
  | fuel + 1, i :: rest =>
    let hd :=
      match g.cells.get? i with
      | none => Snap.nilS
      | some c =>
        match c.content with
        | .prim p => Snap.prim c.ty p
        | .ptr none => Snap.ptrV c.ty none
        | .ptr (some t) => Snap.ptrV c.ty (some (targetAddr g t))
        | .iface none => Snap.nilS
        | .iface (some t) =>
          match snapL g fuel [t] with
          | s :: _ => s
          | [] => Snap.bottom
        | .struct_ fs => Snap.structS c.ty (snapL g fuel fs)
        | .array es => Snap.arrayS c.ty (snapL g fuel es)
        | .slice none _ => Snap.sliceS c.ty none
        | .slice (some _) es => Snap.sliceS c.ty (some (snapL g fuel es))
        | .map_ none _ => Snap.mapS c.ty none
        | .map_ (some _) es =>
          Snap.mapS c.ty (some (snapL g fuel (es.flatMap (fun e => [e.1, e.2]))))
        | .chan h => Snap.chanS c.ty h
        | .func_ h => Snap.funcS c.ty h
    hd :: snapL g fuel rest

/-- Snapshot of one occurrence's dereferenced value. -/
def snapOf (g : Graph) (i : NodeId) : Snap :=
  match snapL g (g.cells.length * (g.cells.length + 2) + 2) [i] with
  | s :: _ => s
  | [] => Snap.bottom

/-- Render a primitive as `%#v` does: numbers bare, strings quoted,
booleans as words.  Values of distinct types with equal underlying data
collide, exactly as in the Go heuristic. -/
def primStr : PrimVal → String
  | .i n => toString n
  | .s v => "\x22" ++ v ++ "\x22"
  | .b true => "true"
  | .b false => "false"

/-- Fingerprint a list of snapshots, comma-separating them.  Fueled for the
same reason as `snapL`. -/
def fpList : Nat → List Snap → String
  | 0, _ => "..."
  | _ + 1, [] => ""
  | fuel + 1, s :: rest =>
    let hd :=
      match s with
      | .nilS => "<nil>"
      | .unexported => "\x22<unexported>\x22"
      | .bottom => "..."
      | .prim _ p => primStr p
      | .ptrV ty none => "(" ++ ty.name ++ ")(nil)"
      | .ptrV ty (some a) => "(" ++ ty.name ++ ")(" ++ toString a ++ ")"
      | .structS ty fs => ty.name ++ "(" ++ fpList fuel fs ++ ")"
      | .arrayS ty es => ty.name ++ "(" ++ fpList fuel es ++ ")"
      | .sliceS ty none => ty.name ++ "(nil)"
      | .sliceS ty (some es) => ty.name ++ "(" ++ fpList fuel es ++ ")"
      | .mapS ty none => ty.name ++ "(nil)"
      | .mapS ty (some es) => ty.name ++ "(" ++ fpList fuel es ++ ")"
      | .chanS ty h => "(" ++ ty.name ++ ")(" ++ toString (h.getD 0) ++ ")"
      | .funcS ty h => "(" ++ ty.name ++ ")(" ++ toString (h.getD 0) ++ ")"
    match rest with
    | [] => hd
    | _ => hd ++ ", " ++ fpList fuel rest

/-- The `fmt.Sprintf("%#v", stats.value)` fingerprint of a snapshot. -/
def fingerprint (s : Snap) : String :=
  fpList 1000 [s]

/-! ### The Dumper state -/

/-- Source `canonicalKey` (references.go): address plus type. -/
structure CKey where
  addr : Nat
  ty : GoType
deriving DecidableEq, Repr

/-- Source `definitionPoint` (references.go). -/
structure DefPoint where
  instanceKey : CKey
  isPointerRef : Bool
  indirectionLevel : Nat
  level : Nat
  valueType : GoType
deriving DecidableEq, Repr

/-- Source `RefStats` (references.go).  `minPointerRefLevel` keeps the `-1`
sentinel of the source, hence `Int`. -/
structure RefStats where
  pointerReferencesCount : Nat
  definitionLevel : Nat
  minPointerRefLevel : Int
  totalReferencesCount : Nat
  valueKind : GoKind
  isPrimitive : Bool
  value : Snap
deriving Repr

/-- The zero `RefStats` (Go's zero value, as built by `&RefStats{}`;
`reflect.Kind`'s zero value is `Invalid` and the nil interface snapshots to
`nilS`). -/
def RefStats.zero : RefStats :=
  { pointerReferencesCount := 0, definitionLevel := 0, minPointerRefLevel := 0,
    totalReferencesCount := 0, valueKind := .invalid, isPrimitive := false,
    value := .nilS }

/-- Association-list lookup (first binding wins, like a Go map read). -/
def lookupA {α β : Type} [DecidableEq α] : List (α × β) → α → Option β
  | [], _ => none
  | (k, v) :: rest, key => if key = k then some v else lookupA rest key

/-- Association-list write: replace the existing binding in place, else
append (a Go map write). -/
def setA {α β : Type} [DecidableEq α] : List (α × β) → α → β → List (α × β)
  | [], key, v => [(key, v)]
  | (k, v0) :: rest, key, v =>
    if key = k then (k, v) :: rest else (k, v0) :: setA rest key v

/-- All analysis maps of the `Dumper` (references.go fields), as association
lists in insertion order. -/
structure DState where
  referenceStats : List (CKey × RefStats)
  referenceIDs : List (CKey × String)
  canonicalRoots : List (CKey × CKey)
  primitiveInstances : List (CKey × Snap)
  definitionPoints : List (CKey × DefPoint)
  renderedIDs : List (CKey × Bool)
  fakeAddrs : List ((GoType × PrimVal) × Nat)
  visitedPointers : List Nat
deriving Repr

/-- Source `resetState` (references.go): clear every reference-tracking map
at the start of a top-level dump. -/
def resetState (st : DState) : DState :=
  { st with referenceStats := [], referenceIDs := [], canonicalRoots := [],
            primitiveInstances := [], definitionPoints := [], renderedIDs := [],
            fakeAddrs := [] }

/-- Empty state. -/
def DState.empty : DState :=
  ⟨[], [], [], [], [], [], [], []⟩

/-- Base of the synthetic addresses handed to non-addressable primitives
(source constant `0xffffff00`). -/
def fakeBase : Nat := 0xffffff00

/-- Look up or create the synthetic address for a primitive value, keyed by
its dynamic type and data exactly like the `map[any]uintptr` of the source. -/
def fakeAddrFor (st : DState) (key : GoType × PrimVal) : Nat × DState :=
  match lookupA st.fakeAddrs key with
  | some a => (a, st)
  | none =>
    let a := fakeBase + st.fakeAddrs.length
    (a, { st with fakeAddrs := st.fakeAddrs ++ [(key, a)] })

/-- Source `findRoot` (references.go): union-find lookup with path
compression; an unknown key becomes its own root.  Fueled; the parent
structure produced by `union` is acyclic, so graph-sized fuel suffices. -/
def findRootN : Nat → List (CKey × CKey) → CKey → CKey × List (CKey × CKey)
  | 0, m, k => (k, m)
  | fuel + 1, m, k =>
    match lookupA m k with
    | none => (k, setA m k k)
    | some p =>
      if p = k then (k, setA m k k)
      else
        let (root, m') := findRootN fuel m p
        (root, setA m' k root)

/-- `findRoot` on the full state. -/
def findRootSt (st : DState) (k : CKey) : CKey × DState :=
  let pr := findRootN (st.canonicalRoots.length + 1) st.canonicalRoots k
  (pr.1, { st with canonicalRoots := pr.2 })

/-- Application of a derived key plan to the state: a concrete key needs no
table; a primitive key goes through the synthetic-address table. -/
def keyFromPlan (st : DState) : Option (CKey ⊕ (GoType × PrimVal)) →
    Option CKey × DState
  | none => (none, st)
  | some (.inl k) => (some k, st)
  | some (.inr pk) =>
    let pr := fakeAddrFor st pk
    (some ⟨pr.1, pk.1⟩, pr.2)

/-- The state-independent part of `getInstanceKey` (references.go): key of
the occurrence itself, without the final dereference.  Interfaces recurse on
their element; an addressable value keys by its own address; pointers and
reference containers key by `Pointer()`; an exportable non-addressable
primitive keys through the synthetic-address table (deferred to
`keyFromPlan`).  The fuel bounds the interface chain. -/
def instKeyPlanN (g : Graph) : Nat → Option NodeId →
    Option (CKey ⊕ (GoType × PrimVal))
  | 0, _ => none
  | fuel + 1, v =>
    match g.cellOf v with
    | none => none
    | some c =>
      match c.content with
      | .iface none => none
      | .iface (some t) => instKeyPlanN g fuel (some t)
      | cnt =>
        if c.canAddr then some (.inl ⟨c.addr, c.ty⟩)
        else
          match cnt with
          | .ptr none => none
          | .ptr (some t) => some (.inl ⟨targetAddr g t, c.ty⟩)
          | .map_ none _ => none
          | .map_ (some h) _ => some (.inl ⟨h, c.ty⟩)
          | .slice none _ => none
          | .slice (some h) _ => some (.inl ⟨h, c.ty⟩)
          | .chan none => none
          | .chan (some h) => some (.inl ⟨h, c.ty⟩)
          | .func_ none => none
          | .func_ (some h) => some (.inl ⟨h, c.ty⟩)
          | .prim p => if exportOK c then some (.inr (c.ty, p)) else none
          | _ => none

/-- Source `getInstanceKey` (references.go) with explicit interface fuel. -/
def getInstanceKeyN (g : Graph) (fuel : Nat) (st : DState) (v : Option NodeId) :
    Option CKey × DState :=
  keyFromPlan st (instKeyPlanN g fuel v)

/-- `getInstanceKey` with graph-sized fuel. -/
def getInstanceKey (g : Graph) (st : DState) (v : Option NodeId) :
    Option CKey × DState :=
  getInstanceKeyN g (g.cells.length + 1) st v

/-- The state-independent part of `getRawKey` (references.go): key of the
underlying value after `deref`; addressable storage keys by address,
reference containers by their handle, exportable primitives through the
synthetic-address table (deferred to `keyFromPlan`); everything else has no
key. -/
def rawKeyPlan (g : Graph) (v : Option NodeId) :
    Option (CKey ⊕ (GoType × PrimVal)) :=
  match g.cellOf (deref g v) with
  | none => none
  | some c =>
    if c.canAddr then some (.inl ⟨c.addr, c.ty⟩)
    else
      match c.content with
      | .map_ none _ => none
      | .map_ (some h) _ => some (.inl ⟨h, c.ty⟩)
      | .slice none _ => none
      | .slice (some h) _ => some (.inl ⟨h, c.ty⟩)
      | .chan none => none
      | .chan (some h) => some (.inl ⟨h, c.ty⟩)
      | .func_ none => none
      | .func_ (some h) => some (.inl ⟨h, c.ty⟩)
      | .prim p => if exportOK c then some (.inr (c.ty, p)) else none
      | _ => none

/-- Source `getRawKey` (references.go). -/
def getRawKey (g : Graph) (st : DState) (v : Option NodeId) :
    Option CKey × DState :=
  keyFromPlan st (rawKeyPlan g v)

/-! ### The pre-scan pass -/

/-- The pointer-like classification at the top of `processValue`
(references.go): a true pointer reference, or a non-nil slice or map.
Channels and functions are not special-cased there. -/
def processIsPtr (g : Graph) (v : Option NodeId) : Bool :=
  if isPointerRef g v then true
  else
    match kindOf g v with
    | .slice => !isNilV g v
    | .map_ => !isNilV g v
    | _ => false

/-- Source `getOrCreateStats` (references.go). -/
def getOrCreateStats (g : Graph) (st : DState) (key : CKey) (v : Option NodeId)
    (level : Nat) : RefStats × DState :=
  match lookupA st.referenceStats key with
  | some stats => (stats, st)
  | none =>
    let kd := kindOf g v
    let value :=
      match g.cellOf v with
      | none => Snap.nilS
      | some c =>
        if exportOK c then
          match v with
          | some i => snapOf g i
          | none => Snap.nilS
        else Snap.unexported
    let stats : RefStats :=
      { pointerReferencesCount := 0, definitionLevel := level,
        minPointerRefLevel := -1, totalReferencesCount := 0,
        valueKind := kd, isPrimitive := isPrimitiveKind kd, value := value }
    (stats, { st with referenceStats := st.referenceStats ++ [(key, stats)] })

/-- Source `processValue` (references.go): classify the occurrence, derive
its raw key, and bump the per-key statistics. -/
def processValue (g : Graph) (st : DState) (v : Option NodeId) (level : Nat) :
    DState :=
  let isPtr := processIsPtr g v
  let target := deref g v
  if isValidV g target then
    match getRawKey g st target with
    | (none, st1) => st1
    | (some key, st1) =>
      let pair := getOrCreateStats g st1 key target level
      let st2 := pair.2
      let stats1 :=
        { pair.1 with totalReferencesCount := pair.1.totalReferencesCount + 1 }
      let stats2 :=
        if isPtr then
          { stats1 with
            pointerReferencesCount := stats1.pointerReferencesCount + 1,
            minPointerRefLevel :=
              if stats1.minPointerRefLevel = -1 ∨
                  (level : Int) < stats1.minPointerRefLevel
              then (level : Int) else stats1.minPointerRefLevel }
        else stats1
      let st3 := { st2 with referenceStats := setA st2.referenceStats key stats2 }
      if stats2.isPrimitive then
        match lookupA st3.primitiveInstances key with
        | some _ => st3
        | none =>
          { st3 with primitiveInstances := st3.primitiveInstances ++ [(key, stats2.value)] }
      else st3
  else st

/-- An item of the BFS queues (source `queueItem`). -/
structure QItem where
  v : Option NodeId
  level : Nat
deriving Repr

/-- Source `addChildrenToQueue` (references.go): enqueue the children of a
composite at `level + 1`.  Map entries are stored in the order
`sortMapKeys` yields, keys before values as in the source loop. -/
def addChildrenToQueue (g : Graph) (queue : List QItem) (v : Option NodeId)
    (level : Nat) : List QItem :=
  match g.cellOf (deref g v) with
  | none => queue
  | some c =>
    match c.content with
    | .struct_ fs => queue ++ fs.map (fun f => ⟨some f, level + 1⟩)
    | .slice none _ => queue
    | .slice (some _) es => queue ++ es.map (fun e => ⟨some e, level + 1⟩)
    | .array es => queue ++ es.map (fun e => ⟨some e, level + 1⟩)
    | .map_ none _ => queue
    | .map_ (some _) es =>
      queue ++ es.flatMap (fun e => [⟨some e.1, level + 1⟩, ⟨some e.2, level + 1⟩])
    | _ => queue

/-- The loop of `preScanBFS` (references.go), with an explicit queue,
`traversed` set and fuel.  Besides the final state it returns the log of
composite keys whose children were expanded, in expansion order (used to
state the at-most-once expansion property). -/
def preScanLoop (g : Graph) : Nat → List QItem → List CKey → DState →
    DState × List CKey
  | 0, _, _, st => (st, [])
  | _ + 1, [], _, st => (st, [])
  | fuel + 1, it :: rest, traversed, st =>
    if isValidV g it.v then
      let st1 := processValue g st it.v it.level
      let target := deref g it.v
      if isValidV g target && isCompositeOrInterface (kindOf g target) then
        match getRawKey g st1 target with
        | (none, st2) => preScanLoop g fuel rest traversed st2
        | (some key, st2) =>
          if key ∈ traversed then preScanLoop g fuel rest traversed st2
          else
            let queue' := addChildrenToQueue g rest it.v it.level
            let res := preScanLoop g fuel queue' (key :: traversed) st2
            (res.1, key :: res.2)
      else preScanLoop g fuel rest traversed st1
    else preScanLoop g fuel rest traversed st

/-- Source `preScanBFS` (references.go): one BFS from one root value, with a
fresh `traversed` set. -/
def preScanBFS (g : Graph) (fuel : Nat) (st : DState) (v : Option NodeId) :
    DState × List CKey :=
  preScanLoop g fuel [⟨v, 0⟩] [] st

/-- The pre-scan portion of `renderAllValues`: one `preScanBFS` per root
value, in order; the expansion logs are concatenated. -/
def preScanAll (g : Graph) (fuel : Nat) : List (Option NodeId) → DState →
    DState × List CKey
  | [], st => (st, [])
  | v :: vs, st =>
    let res1 := preScanBFS g fuel st v
    let res2 := preScanAll g fuel vs res1.1
    (res2.1, res1.2 ++ res2.2)

/-! ### The copy-unification pass -/

/-- Source `union` (references.go): link the root with the larger address
under the root with the smaller one. -/
def union (st : DState) (k1 k2 : CKey) : DState :=
  let pr1 := findRootSt st k1
  let pr2 := findRootSt pr1.2 k2
  if pr1.1 = pr2.1 then pr2.2
  else if pr1.1.addr < pr2.1.addr then
    { pr2.2 with canonicalRoots := setA pr2.2.canonicalRoots pr2.1 pr1.1 }
  else
    { pr2.2 with canonicalRoots := setA pr2.2.canonicalRoots pr1.1 pr2.1 }

/-- Append a value under a grouping key, preserving first-seen group order
(the order Go's `append` to a map-of-slices entry produces within a group). -/
def appendGroup {α : Type} [DecidableEq α] :
    List (α × List CKey) → α → CKey → List (α × List CKey)
  | [], fp, k => [(fp, [k])]
  | (f0, ks) :: rest, fp, k =>
    if fp = f0 then (f0, ks ++ [k]) :: rest else (f0, ks) :: appendGroup rest fp k

/-- Sort keys by ascending address (`sort.Slice` on `.addr <` in the
source). -/
def sortByAddr (ks : List CKey) : List CKey :=
  List.insertionSort (fun a b => a.addr ≤ b.addr) ks

/-- Handling of one fingerprint group inside `unifyAllCopies`
(references.go): split into sources and copies, then apply the
primitive-pairing rule, the composite all-sources rule, and the general
one-source rule. -/
def unifyGroup (st : DState) (keys : List CKey) : DState :=
  if keys.length < 2 then st
  else
    let part := keys.partition (fun k =>
      match lookupA st.referenceStats k with
      | some s => decide (s.pointerReferencesCount > 0)
      | none => false)
    let sources := part.1
    let copies := part.2
    let isPrimitiveGroup :=
      match keys.head? with
      | some k0 =>
        match lookupA st.referenceStats k0 with
        | some s => s.isPrimitive
        | none => false
      | none => false
    let st1 :=
      if isPrimitiveGroup then
        if sources.length > 1 ∧ sources.length = copies.length then
          ((sortByAddr sources).zip (sortByAddr copies)).foldl
            (fun s p => union s p.1 p.2) st
        else st
      else
        if sources.length > 1 ∧ copies.length = 0 then
          match sources with
          | s0 :: restS => restS.foldl (fun s k => union s k s0) st
          | [] => st
        else st
    if sources.length = 1 ∧ copies.length > 0 then
      match sources with
      | s0 :: _ => copies.foldl (fun s k => union s k s0) st1
      | [] => st1
    else st1

/-- The `valueToKeys` grouping of `unifyAllCopies` (references.go): group
tracked keys by the `%#v` fingerprint of their sampled value, skipping
keys whose stats record a struct kind and whose type has size zero. -/
def fingerprintGroups (st : DState) : List (String × List CKey) :=
  st.referenceStats.foldl
    (fun acc kv =>
      if kv.2.valueKind = GoKind.struct_ ∧ kv.1.ty.size = 0 then acc
      else appendGroup acc (fingerprint kv.2.value) kv.1)
    ([] : List (String × List CKey))

/-- Source `unifyAllCopies` (references.go): group tracked keys by the
`%#v` fingerprint of their sampled value — skipping zero-sized structs —
and union the groups according to the heuristics. -/
def unifyAllCopies (st : DState) : DState :=
  (fingerprintGroups st).foldl (fun s grp => unifyGroup s grp.2) st

/-! ### The ID-assignment pass -/

/-- Source `getMergedStats` (references.go): group every tracked key under
its union-find root and sum total and pointer counts per root; kind, value
sample and primitive flag come from the root's own stats when present. -/
def getMergedStats (st : DState) : List (CKey × RefStats) × DState :=
  let folded := st.referenceStats.foldl
    (fun (acc : List (CKey × List CKey) × DState) kv =>
      let pr := findRootSt acc.2 kv.1
      (appendGroup acc.1 pr.1 kv.1, pr.2))
    ([], st)
  let st' := folded.2
  let merged := folded.1.map (fun rm =>
    let base :=
      match lookupA st'.referenceStats rm.1 with
      | some rs =>
        { RefStats.zero with value := rs.value, valueKind := rs.valueKind,
                             isPrimitive := rs.isPrimitive }
      | none => RefStats.zero
    let summed := rm.2.foldl
      (fun acc mk =>
        match lookupA st'.referenceStats mk with
        | some ms =>
          { acc with
            totalReferencesCount := acc.totalReferencesCount + ms.totalReferencesCount,
            pointerReferencesCount :=
              acc.pointerReferencesCount + ms.pointerReferencesCount }
        | none => acc)
      base
    (rm.1, summed))
  (merged, st')

/-- The deterministic ordering used on roots before assigning IDs
(references.go, the `sort.Slice` in `assignReferenceIDs`): ascending
address, ties broken by ascending type name. -/
def keyLE (a b : CKey) : Prop :=
  a.addr < b.addr ∨ (a.addr = b.addr ∧ a.ty.name ≤ b.ty.name)

instance : DecidableRel keyLE := fun a b => by
  unfold keyLE
  infer_instance

/-- The sharing rule of `assignReferenceIDs`: more than one pointer
reference, or a mix of pointer and value references. -/
def qualifiesB (merged : List (CKey × RefStats)) (k : CKey) : Bool :=
  let stats := (lookupA merged k).getD RefStats.zero
  decide (stats.pointerReferencesCount > 1) ||
    (decide (stats.pointerReferencesCount > 0) &&
      decide (stats.totalReferencesCount > stats.pointerReferencesCount))

/-- The labelling loop of `assignReferenceIDs`: walk the sorted roots,
give each qualifying root not yet labelled the next "&n". -/
def assignLoop (merged : List (CKey × RefStats)) :
    List CKey → Nat → List (CKey × String) → List (CKey × String)
  | [], _, ids => ids
  | k :: ks, n, ids =>
    if qualifiesB merged k then
      match lookupA ids k with
      | some _ => assignLoop merged ks n ids
      | none => assignLoop merged ks (n + 1) (ids ++ [(k, "&" ++ toString n)])
    else assignLoop merged ks n ids

/-- Source `assignReferenceIDs` (references.go): merge stats, sort the
roots deterministically, and hand out sequential "&1", "&2", … labels to
the qualifying ones. -/
def assignReferenceIDs (st : DState) : DState :=
  let pr := getMergedStats st
  let sortedRoots := List.insertionSort keyLE (pr.1.map Prod.fst)
  { pr.2 with referenceIDs := assignLoop pr.1 sortedRoots 1 pr.2.referenceIDs }

/-! ### The definition-point pass -/

/-- The priority comparison of `determineDefinitionPoints`
(references.go): decides whether the current occurrence is strictly better
than the incumbent definition point. -/
def defPointCompare (incumbent : DefPoint) (curIsPtr : Bool) (curInd : Nat)
    (curLevel : Nat) : Bool :=
  if incumbent.isPointerRef && !curIsPtr then true
  else if !incumbent.isPointerRef && curIsPtr then false
  else if curIsPtr then
    if curInd < incumbent.indirectionLevel then true
    else if curInd = incumbent.indirectionLevel then
      decide (curLevel < incumbent.level)
    else false
  else decide (curLevel < incumbent.level)

/-- `deref(v).Type()` as recorded in a definition point. -/
def derefTy (g : Graph) (v : Option NodeId) : GoType :=
  match g.cellOf (deref g v) with
  | some c => c.ty
  | none => GoType.mk "" 0

/-- The `isBetter` decision of the `hasID` block of
`determineDefinitionPoints`: a missing incumbent is always beaten, an
existing one is compared by `defPointCompare`. -/
def defBetter (g : Graph) (st : DState) (root : CKey) (v : Option NodeId)
    (level : Nat) : Bool :=
  match lookupA st.definitionPoints root with
  | none => true
  | some incumbent =>
    defPointCompare incumbent (isPointerRef g v) (getIndirectionLevel g v) level

/-- The definition point recorded for an occurrence: its instance key,
pointer-ness, indirection level, BFS level and dereferenced type. -/
def mkDefPoint (g : Graph) (instKey : CKey) (v : Option NodeId) (level : Nat) :
    DefPoint :=
  ⟨instKey, isPointerRef g v, getIndirectionLevel g v, level, derefTy g v⟩

/-- The definition-point update for one occurrence whose root is known
(the `hasID` block of `determineDefinitionPoints`): when the occurrence is
better than the incumbent (or there is none) and its instance key is
derivable, record it. -/
def defUpdate (g : Graph) (st : DState) (root : CKey) (v : Option NodeId)
    (level : Nat) : DState :=
  match lookupA st.referenceIDs root with
  | none => st
  | some _ =>
    if defBetter g st root v level then
      match getInstanceKey g st v with
      | (some instKey, st') =>
        { st' with definitionPoints := setA st'.definitionPoints root (mkDefPoint g instKey v level) }
      | (none, st') => st'
    else st

/-- One occurrence's definition-point processing: derive its raw key, find
its root, and run `defUpdate`. -/
def updateDefPoint (g : Graph) (st : DState) (v : Option NodeId) (level : Nat) :
    DState :=
  match getRawKey g st v with
  | (none, st1) => st1
  | (some rawKey, st1) =>
    defUpdate g (findRootSt st1 rawKey).2 (findRootSt st1 rawKey).1 v level

/-- The traversal tail of the `determineDefinitionPoints` loop body
(references.go lines after the `hasID` block): expand the dereferenced
composite's children unless it was already traversed. -/
def defTraverse (g : Graph) (rest : List QItem) (traversed : List CKey)
    (st : DState) (v : Option NodeId) (level : Nat) :
    List QItem × List CKey × DState :=
  if isValidV g (deref g v) && isCompositeOrInterface (kindOf g (deref g v)) then
    match getRawKey g st (deref g v) with
    | (none, s) => (rest, traversed, s)
    | (some tk, s) =>
      if tk ∈ traversed then (rest, traversed, s)
      else (addChildrenToQueue g rest v level, tk :: traversed, s)
  else (rest, traversed, st)

/-- The loop of `determineDefinitionPoints` (references.go), fueled, also
returning the list of traversed occurrences that had a derivable raw key
(node and BFS level, in visit order). -/
def defLoop (g : Graph) : Nat → List QItem → List CKey → DState →
    List (NodeId × Nat) × DState
  | 0, _, _, st => ([], st)
  | _ + 1, [], _, st => ([], st)
  | fuel + 1, it :: rest, traversed, st =>
    match it.v with
    | none => defLoop g fuel rest traversed st
    | some i =>
      if (g.cells.get? i).isNone then defLoop g fuel rest traversed st
      else
        match getRawKey g st it.v with
        | (none, st1) => defLoop g fuel rest traversed st1
        | (some _, _) =>
          let st3 := updateDefPoint g st it.v it.level
          let next := defTraverse g rest traversed st3 it.v it.level
          let res := defLoop g fuel next.1 next.2.1 next.2.2
          ((i, it.level) :: res.1, res.2)

/-- Source `determineDefinitionPoints`: one BFS from one root value with a
fresh `traversed` set. -/
def determineDefinitionPoints (g : Graph) (fuel : Nat) (st : DState)
    (v : Option NodeId) : List (NodeId × Nat) × DState :=
  defLoop g fuel [⟨v, 0⟩] [] st

/-- The definition-point portion of `renderAllValues`: one
`determineDefinitionPoints` per root value, in order. -/
def defPointsPass (g : Graph) (fuel : Nat) : List (Option NodeId) → DState →
    List (NodeId × Nat) × DState
  | [], st => ([], st)
  | v :: vs, st =>
    let res1 := determineDefinitionPoints g fuel st v
    let res2 := defPointsPass g fuel vs res1.2
    (res1.1 ++ res2.1, res2.2)

/-- The full reference-tracking analysis pipeline of `renderAllValues`
(main dumper file) with `TrackReferences` enabled: reset, pre-scan every
root, unify copies, assign IDs, determine definition points.  Returns the
traversed occurrence list of the definition-point pass together with the
final state. -/
def analyzeWithOccs (g : Graph) (fuel : Nat) (roots : List (Option NodeId))
    (st0 : DState) : List (NodeId × Nat) × DState :=
  let st1 := (preScanAll g fuel roots (resetState st0)).1
  let st2 := unifyAllCopies st1
  let st3 := assignReferenceIDs st2
  defPointsPass g fuel roots st3

/-! ### The renderer

`renderValue` (main dumper file) is modelled as a worklist machine: one
`renderStep` processes one work item exactly as one `renderValue` body
(respectively one struct-field prologue of `renderStruct`, or one literal
token such as a closing brace), emitting render events and pushing the
items for the recursive calls in front of the remaining work.  Pure
formatting (colors, padding, inline-vs-block layout, item truncation,
Stringer/error interception, hexdump) is out of the engine's scope and is
not modelled; the event stream keeps exactly the decisions the
reference-identity contract is about.  The fuel bounds the number of steps;
its exhaustion is marked by an explicit `fuelOut` event, so an event list
without `fuelOut` certifies genuine termination. -/

/-- Observable rendering events. -/
inductive REvent where
  | fuelOut
  | maxDepth
  | invalid
  | nilV
  | idLabel (root : CKey) (label : String)
  | backref (root : CKey) (label : String)
  | primV (p : PrimVal)
  | openC (k : GoKind)
  | closeC (k : GoKind)
  | chanV (h : Nat)
  | funcV (h : Nat)
  | cycleV
  | warn
deriving DecidableEq, Repr

/-- The configuration fields of the `Dumper` this engine reads. -/
structure Config where
  maxDepth : Nat
  trackReferences : Bool
deriving Repr

/-- Work items of the rendering machine: a `renderValue` call, a struct
field (which first runs `renderStruct`'s embedded back-reference check),
or a literal event. -/
inductive WItem where
  | rval (v : Option NodeId) (level : Nat) (skipRefCheck : Bool)
  | sfield (v : Option NodeId) (level : Nat)
  | tok (e : REvent)
deriving Repr

/-- Source `getValPtr` (reflect_helpers.go), used by the simple cycle
guard when reference tracking is disabled. -/
def getValPtrN (g : Graph) : Nat → Option NodeId → Option Nat
  | 0, _ => none
  | fuel + 1, v =>
    match g.cellOf v with
    | none => none
    | some c =>
      match c.content with
      | .ptr none => none
      | .ptr (some t) => some (targetAddr g t)
      | .map_ h _ => h
      | .slice h _ => h
      | .chan h => h
      | .func_ h => h
      | .iface none => none
      | .iface (some t) => getValPtrN g fuel (some t)
      | _ => if c.canAddr then some c.addr else none

/-- `getValPtr` with graph-sized fuel. -/
def getValPtr (g : Graph) (v : Option NodeId) : Option Nat :=
  getValPtrN g (g.cells.length + 1) v

/-- The ID/back-reference block at the top of `renderValue` (main dumper
file): derive the raw key and root; when the root has an ID, decide
between printing the ID label at the chosen definition point (setting the
rendered flag), or a back-reference.  Returns `(early, events, state)`;
`early` means `renderValue` returns without descending. -/
def renderRefCheck (g : Graph) (st : DState) (v : Option NodeId) :
    Bool × List REvent × DState :=
  match getRawKey g st v with
  | (none, sta) => (false, [], sta)
  | (some rawKey, sta) =>
    let pr := findRootSt sta rawKey
    let rootKey := pr.1
    let stb := pr.2
    match lookupA stb.referenceIDs rootKey with
    | none => (false, [], stb)
    | some id =>
      let dp := lookupA stb.definitionPoints rootKey
      let ik := getInstanceKey g stb v
      let stc := ik.2
      let isChosen :=
        match dp, ik.1 with
        | some d, some k => decide (d.instanceKey = k)
        | _, _ => false
      if isChosen then
        if (lookupA stc.renderedIDs rootKey).getD false then
          (true, [.backref rootKey id], stc)
        else
          (false, [.idLabel rootKey id],
            { stc with renderedIDs := setA stc.renderedIDs rootKey true })
      else (true, [.backref rootKey id], stc)

/-- The kind dispatch at the bottom of `renderValue`: pointers and
interfaces recurse on their element at the same level with the reference
check skipped; composites open a bracket and render their children at the
next level (map keys are formatted directly, not via `renderValue`, hence
only map values are pushed); primitives, channels and functions emit a
single token. -/
def renderDispatch (g : Graph) (st : DState) (v : Option NodeId) (level : Nat) :
    List REvent × DState × List WItem :=
  match g.cellOf v with
  | none => ([.warn], st, [])
  | some c =>
    match c.content with
    | .ptr (some t) => ([], st, [.rval (some t) level true])
    | .iface (some t) => ([], st, [.rval (some t) level true])
    | .struct_ fs =>
      ([.openC .struct_], st,
        fs.map (fun f => WItem.sfield (some f) (level + 1)) ++ [.tok (.closeC .struct_)])
    | .array es =>
      ([.openC .array], st,
        es.map (fun e => WItem.rval (some e) (level + 1) false) ++ [.tok (.closeC .array)])
    | .slice (some _) es =>
      ([.openC .slice], st,
        es.map (fun e => WItem.rval (some e) (level + 1) false) ++ [.tok (.closeC .slice)])
    | .map_ (some _) es =>
      ([.openC .map_], st,
        es.map (fun e => WItem.rval (some e.2) (level + 1) false) ++ [.tok (.closeC .map_)])
    | .prim p => ([.primV p], st, [])
    | .chan (some h) => ([.chanV h], st, [])
    | .func_ (some h) => ([.funcV h], st, [])
    | _ => ([.warn], st, [])

/-- One step of the rendering machine.  The `rval` case is the body of
`renderValue`: max-depth guard, invalid guard, nil guard, the
ID/back-reference block when tracking is on and not skipped, the
visited-pointer cycle guard when tracking is off, then kind dispatch.  The
`sfield` case is the embedded-struct back-reference prologue of
`renderStruct` before it delegates to `renderValue`. -/
def renderStep (g : Graph) (cfg : Config) (st : DState) :
    WItem → List REvent × DState × List WItem
  | .tok e => ([e], st, [])
  | .sfield v level =>
    if cfg.trackReferences && (kindOf g v = GoKind.struct_ : Bool) then
      match getRawKey g st v with
      | (none, sta) => ([], sta, [WItem.rval v level false])
      | (some rawKey, sta) =>
        let pr := findRootSt sta rawKey
        let stb := pr.2
        match lookupA stb.referenceIDs pr.1 with
        | none => ([], stb, [WItem.rval v level false])
        | some id =>
          match lookupA stb.definitionPoints pr.1 with
          | none => ([], stb, [WItem.rval v level false])
          | some defp =>
            let dty : Option GoType :=
              match g.cellOf (deref g v) with
              | some c => some c.ty
              | none => none
            if defp.isPointerRef && (dty = some defp.valueType : Bool) then
              ([.backref pr.1 id], stb, [])
            else ([], stb, [WItem.rval v level false])
    else ([], st, [WItem.rval v level false])
  | .rval v level skip =>
    if level > cfg.maxDepth then ([.maxDepth], st, [])
    else if !isValidV g v then ([.invalid], st, [])
    else if isNilV g v then ([.nilV], st, [])
    else if cfg.trackReferences && !skip then
      let rc := renderRefCheck g st v
      if rc.1 then (rc.2.1, rc.2.2, [])
      else
        let disp := renderDispatch g rc.2.2 v level
        (rc.2.1 ++ disp.1, disp.2.1, disp.2.2)
    else if !cfg.trackReferences then
      match getValPtr g v with
      | some a =>
        if a ∈ st.visitedPointers then ([.cycleV], st, [])
        else renderDispatch g { st with visitedPointers := a :: st.visitedPointers } v level
      | none => renderDispatch g st v level
    else renderDispatch g st v level

/-- Run the rendering machine to completion (or fuel exhaustion, marked by
`fuelOut`). -/
def renderGo (g : Graph) (cfg : Config) : Nat → DState → List WItem →
    List REvent × DState
  | 0, st, _ => ([.fuelOut], st)
  | _ + 1, st, [] => ([], st)
  | fuel + 1, st, w :: rest =>
    let step := renderStep g cfg st w
    let res := renderGo g cfg fuel step.2.1 (step.2.2 ++ rest)
    (step.1 ++ res.1, res.2)

/-- Source `renderValue` entry point: render one root occurrence. -/
def renderValue (g : Graph) (cfg : Config) (fuel : Nat) (st : DState)
    (v : Option NodeId) : List REvent × DState :=
  renderGo g cfg fuel st [.rval v 0 false]

/-! ### Association-list lemmas -/

theorem lookupA_setA_self {α β : Type} [DecidableEq α] (m : List (α × β))
    (k : α) (v : β) : lookupA (setA m k v) k = some v := by
  induction m with
  | nil => simp [setA, lookupA]
  | cons hd tl ih =>
    by_cases h : k = hd.1
    · simp [setA, lookupA, h]
    · simp [setA, lookupA, h, ih]

theorem lookupA_setA_ne {α β : Type} [DecidableEq α] (m : List (α × β))
    (k k' : α) (v : β) (h : k' ≠ k) :
    lookupA (setA m k v) k' = lookupA m k' := by
  induction m with
  | nil => simp [setA, lookupA, h]
  | cons hd tl ih =>
    by_cases hk : k = hd.1
    · subst hk
      simp [setA, lookupA, h]
    · by_cases hk' : k' = hd.1
      · simp [setA, lookupA, hk, hk']
      · simp [setA, lookupA, hk, hk', ih]

theorem lookupA_setA {α β : Type} [DecidableEq α] (m : List (α × β))
    (k k' : α) (v : β) :
    lookupA (setA m k v) k' = if k' = k then some v else lookupA m k' := by
  by_cases h : k' = k
  · subst h
    simp [lookupA_setA_self]
  · simp [h, lookupA_setA_ne m k k' v h]

theorem lookupA_isSome_iff_mem {α β : Type} [DecidableEq α]
    (m : List (α × β)) (k : α) :
    (lookupA m k).isSome ↔ k ∈ m.map Prod.fst := by
  induction m with
  | nil => simp [lookupA]
  | cons hd tl ih =>
    by_cases h : k = hd.1
    · simp [lookupA, h]
    · simp [lookupA, h, ih]

theorem lookupA_append_left {α β : Type} [DecidableEq α]
    (m m' : List (α × β)) (k : α) (v : β) (h : lookupA m k = some v) :
    lookupA (m ++ m') k = some v := by
  induction m with
  | nil => simp [lookupA] at h
  | cons hd tl ih =>
    by_cases hk : k = hd.1
    · simp [lookupA, hk] at h ⊢
      exact h
    · simp [lookupA, hk] at h ⊢
      exact ih h

theorem lookupA_append_none {α β : Type} [DecidableEq α]
    (m m' : List (α × β)) (k : α) (h : lookupA m k = none) :
    lookupA (m ++ m') k = lookupA m' k := by
  induction m with
  | nil => simp [lookupA]
  | cons hd tl ih =>
    by_cases hk : k = hd.1
    · simp [lookupA, hk] at h
    · simp [lookupA, hk] at h ⊢
      exact ih h

/-! ### State-component lemmas

`getRawKey`, `getInstanceKey` and `fakeAddrFor` touch only the
`fakeAddrs` table, and they only ever append new bindings to it.
`findRootSt` touches only `canonicalRoots`. -/

/-- The synthetic-address table of `st'` extends that of `st`: every
existing binding is preserved. -/
def FAExt (fa fa' : List ((GoType × PrimVal) × Nat)) : Prop :=
  ∀ k a, lookupA fa k = some a → lookupA fa' k = some a

theorem FAExt_refl (fa : List ((GoType × PrimVal) × Nat)) : FAExt fa fa :=
  fun _ _ h => h

theorem FAExt_trans {fa fb fc : List ((GoType × PrimVal) × Nat)}
    (h1 : FAExt fa fb) (h2 : FAExt fb fc) : FAExt fa fc :=
  fun k a h => h2 k a (h1 k a h)

/-- `st'` agrees with `st` except possibly on `fakeAddrs`, which it
extends. -/
def FakeOnly (st st' : DState) : Prop :=
  st'.referenceStats = st.referenceStats ∧
  st'.referenceIDs = st.referenceIDs ∧
  st'.canonicalRoots = st.canonicalRoots ∧
  st'.primitiveInstances = st.primitiveInstances ∧
  st'.definitionPoints = st.definitionPoints ∧
  st'.renderedIDs = st.renderedIDs ∧
  st'.visitedPointers = st.visitedPointers ∧
  FAExt st.fakeAddrs st'.fakeAddrs

theorem FakeOnly_refl (st : DState) : FakeOnly st st :=
  ⟨rfl, rfl, rfl, rfl, rfl, rfl, rfl, FAExt_refl _⟩

theorem FakeOnly_trans {sa sb sc : DState} (h1 : FakeOnly sa sb)
    (h2 : FakeOnly sb sc) : FakeOnly sa sc := by
  obtain ⟨a1, a2, a3, a4, a5, a6, a7, a8⟩ := h1
  obtain ⟨b1, b2, b3, b4, b5, b6, b7, b8⟩ := h2
  exact ⟨b1.trans a1, b2.trans a2, b3.trans a3, b4.trans a4, b5.trans a5,
    b6.trans a6, b7.trans a7, FAExt_trans a8 b8⟩

theorem fakeAddrFor_fakeOnly (st : DState) (key : GoType × PrimVal) :
    FakeOnly st (fakeAddrFor st key).2 := by
  unfold fakeAddrFor
  split
  · exact FakeOnly_refl st
  · refine ⟨rfl, rfl, rfl, rfl, rfl, rfl, rfl, ?_⟩
    intro k a ha
    exact lookupA_append_left _ _ _ _ ha

theorem fakeAddrFor_lookup (st : DState) (key : GoType × PrimVal) :
    lookupA (fakeAddrFor st key).2.fakeAddrs key = some (fakeAddrFor st key).1 := by
  unfold fakeAddrFor
  split
  · next a h => simpa using h
  · next h =>
    simp only
    rw [lookupA_append_none _ _ _ h]
    simp [lookupA]

theorem keyFromPlan_fakeOnly (st : DState)
    (plan : Option (CKey ⊕ (GoType × PrimVal))) :
    FakeOnly st (keyFromPlan st plan).2 := by
  match plan with
  | none => exact FakeOnly_refl st
  | some (.inl k) => exact FakeOnly_refl st
  | some (.inr pk) => exact fakeAddrFor_fakeOnly st pk

theorem keyFromPlan_isSome (st : DState)
    (plan : Option (CKey ⊕ (GoType × PrimVal))) :
    (keyFromPlan st plan).1.isSome = plan.isSome := by
  match plan with
  | none => rfl
  | some (.inl k) => rfl
  | some (.inr pk) => rfl

theorem keyFromPlan_none_state (st : DState)
    (plan : Option (CKey ⊕ (GoType × PrimVal)))
    (h : (keyFromPlan st plan).1 = none) : (keyFromPlan st plan).2 = st := by
  match plan with
  | none => rfl
  | some (.inl k) => simp [keyFromPlan] at h
  | some (.inr pk) => simp [keyFromPlan] at h

theorem fakeAddrFor_self_state (st : DState) (pk : GoType × PrimVal)
    (h : (fakeAddrFor st pk).2 = st) :
    lookupA st.fakeAddrs pk = some (fakeAddrFor st pk).1 := by
  unfold fakeAddrFor at h ⊢
  split at h
  · next a ha => simp [ha]
  · next ha =>
    exfalso
    have hl := congrArg (fun s => s.fakeAddrs.length) h
    simp at hl

theorem keyFromPlan_stable (st st' : DState)
    (plan : Option (CKey ⊕ (GoType × PrimVal))) (k : CKey)
    (h : keyFromPlan st plan = (some k, st))
    (hext : FAExt st.fakeAddrs st'.fakeAddrs) :
    keyFromPlan st' plan = (some k, st') := by
  match plan with
  | none => simp [keyFromPlan] at h
  | some (.inl k0) =>
    simp [keyFromPlan] at h ⊢
    exact h
  | some (.inr pk) =>
    simp only [keyFromPlan] at h ⊢
    have h1 : some (⟨(fakeAddrFor st pk).1, pk.1⟩ : CKey) = some k :=
      congrArg Prod.fst h
    have h2 : (fakeAddrFor st pk).2 = st := congrArg Prod.snd h
    have hlk := fakeAddrFor_self_state st pk h2
    have hlk' : lookupA st'.fakeAddrs pk = some (fakeAddrFor st pk).1 :=
      hext pk _ hlk
    unfold fakeAddrFor
    rw [hlk']
    simp only
    rw [← h1]

theorem keyFromPlan_established (st : DState)
    (plan : Option (CKey ⊕ (GoType × PrimVal))) (k : CKey) (st1 : DState)
    (h : keyFromPlan st plan = (some k, st1)) :
    keyFromPlan st1 plan = (some k, st1) := by
  match plan with
  | none => simp [keyFromPlan] at h
  | some (.inl k0) =>
    simp [keyFromPlan] at h ⊢
    exact h.1
  | some (.inr pk) =>
    simp only [keyFromPlan] at h ⊢
    have h1 : some (⟨(fakeAddrFor st pk).1, pk.1⟩ : CKey) = some k :=
      congrArg Prod.fst h
    have h2 : (fakeAddrFor st pk).2 = st1 := congrArg Prod.snd h
    have hlk : lookupA st1.fakeAddrs pk = some (fakeAddrFor st pk).1 := by
      rw [← h2]
      exact fakeAddrFor_lookup st pk
    unfold fakeAddrFor
    rw [hlk]
    simp only
    rw [← h1]

theorem getInstanceKey_fakeOnly (g : Graph) (st : DState) (v : Option NodeId) :
    FakeOnly st (getInstanceKey g st v).2 :=
  keyFromPlan_fakeOnly st _

theorem getRawKey_fakeOnly (g : Graph) (st : DState) (v : Option NodeId) :
    FakeOnly st (getRawKey g st v).2 :=
  keyFromPlan_fakeOnly st _

theorem getRawKey_none_state (g : Graph) (st : DState) (v : Option NodeId)
    (h : (getRawKey g st v).1 = none) : (getRawKey g st v).2 = st :=
  keyFromPlan_none_state st _ h

theorem getInstanceKey_none_state (g : Graph) (st : DState) (v : Option NodeId)
    (h : (getInstanceKey g st v).1 = none) : (getInstanceKey g st v).2 = st :=
  keyFromPlan_none_state st _ h

theorem getInstanceKey_isSome_stable (g : Graph) (st st' : DState)
    (v : Option NodeId) :
    (getInstanceKey g st v).1.isSome = (getInstanceKey g st' v).1.isSome := by
  unfold getInstanceKey getInstanceKeyN
  rw [keyFromPlan_isSome, keyFromPlan_isSome]

/-- An established instance-key witness: evaluating `getInstanceKey` at
this state succeeds with this key and does not change the state. -/
def InstWitness (g : Graph) (st : DState) (i : NodeId) (key : CKey) : Prop :=
  getInstanceKey g st (some i) = (some key, st)

theorem InstWitness.transport {g : Graph} {st st' : DState} {i : NodeId}
    {key : CKey} (h : InstWitness g st i key)
    (hext : FAExt st.fakeAddrs st'.fakeAddrs) : InstWitness g st' i key :=
  keyFromPlan_stable st st' _ key h hext

theorem InstWitness.establish {g : Graph} {st st1 : DState} {i : NodeId}
    {key : CKey} (h : getInstanceKey g st (some i) = (some key, st1)) :
    InstWitness g st1 i key :=
  keyFromPlan_established st _ key st1 h

theorem findRootSt_parts (st : DState) (k : CKey) :
    (findRootSt st k).2.referenceStats = st.referenceStats ∧
    (findRootSt st k).2.referenceIDs = st.referenceIDs ∧
    (findRootSt st k).2.primitiveInstances = st.primitiveInstances ∧
    (findRootSt st k).2.definitionPoints = st.definitionPoints ∧
    (findRootSt st k).2.renderedIDs = st.renderedIDs ∧
    (findRootSt st k).2.fakeAddrs = st.fakeAddrs ∧
    (findRootSt st k).2.visitedPointers = st.visitedPointers :=
  ⟨rfl, rfl, rfl, rfl, rfl, rfl, rfl⟩

/-! ### Claim C10 -/

theorem getInstanceKey_none_plan (g : Graph) (st : DState) (v : Option NodeId)
    (h : (getInstanceKey g st v).1 = none) :
    instKeyPlanN g (g.cells.length + 1) v = none := by
  cases hp : instKeyPlanN g (g.cells.length + 1) v with
  | none => rfl
  | some x =>
    exfalso
    have hs := keyFromPlan_isSome st (instKeyPlanN g (g.cells.length + 1) v)
    unfold getInstanceKey getInstanceKeyN at h
    rw [hp] at hs h
    rw [h] at hs
    simp at hs

/-- Claim C10: in `determineDefinitionPoints`, when the occurrence's own
instance key cannot be derived, the `definitionPoints` entry for its root is
left exactly as it was — the incumbent is kept, and if no incumbent existed
no entry is created (the whole map is unchanged). -/
theorem defPoint_unchanged_when_instance_key_underivable (g : Graph)
    (st : DState) (v : Option NodeId) (level : Nat)
    (h : (getInstanceKey g st v).1 = none) :
    (updateDefPoint g st v level).definitionPoints = st.definitionPoints := by
  have hplan := getInstanceKey_none_plan g st v h
  unfold updateDefPoint
  split
  · next st1 heq =>
    have hfo := getRawKey_fakeOnly g st v
    rw [heq] at hfo
    exact hfo.2.2.2.2.1
  · next rk st1 heq =>
    have hfo := getRawKey_fakeOnly g st v
    rw [heq] at hfo
    have hdp1 : (findRootSt st1 rk).2.definitionPoints = st.definitionPoints := by
      have hfr := (findRootSt_parts st1 rk).2.2.2.1
      rw [hfr]
      exact hfo.2.2.2.2.1
    unfold defUpdate
    split
    · exact hdp1
    · next id hid =>
      split
      · have hgik : getInstanceKey g (findRootSt st1 rk).2 v =
            (none, (findRootSt st1 rk).2) := by
          unfold getInstanceKey getInstanceKeyN
          rw [hplan]
          rfl
        rw [hgik]
        exact hdp1
      · exact hdp1

/-- A non-addressable struct occurrence: no derivable instance key. -/
def gC10 : Graph :=
  ⟨[⟨⟨"main.W", 8⟩, false, 0, true, .struct_ []⟩]⟩

def stC10 : DState :=
  { DState.empty with
    referenceIDs := [(⟨7, ⟨"int", 8⟩⟩, "&1")],
    definitionPoints := [(⟨7, ⟨"int", 8⟩⟩, ⟨⟨7, ⟨"int", 8⟩⟩, true, 1, 2, ⟨"int", 8⟩⟩)] }

/-- Witness for C10: a non-addressable struct occurrence has no derivable
instance key, and processing it leaves an existing definition-points map
untouched. -/
theorem defPoint_unchanged_when_instance_key_underivable_witness :
    (getInstanceKey gC10 stC10 (some 0)).1 = none ∧
    (updateDefPoint gC10 stC10 (some 0) 3).definitionPoints =
      stC10.definitionPoints :=
  ⟨by decide, defPoint_unchanged_when_instance_key_underivable gC10 stC10
    (some 0) 3 (by decide)⟩

/-! ### Claim C9 -/

/-- The occurrences claim C9 calls "without derivable identity": a nil
pointer, a nil interface, or a non-addressable value of a non-primitive,
non-reference kind (struct or array). -/
def Untrackable (g : Graph) (v : Option NodeId) : Prop :=
  (∃ c, g.cellOf v = some c ∧ c.content = Content.ptr none) ∨
  (∃ c, g.cellOf v = some c ∧ c.content = Content.iface none) ∨
  (∃ c, g.cellOf v = some c ∧ c.canAddr = false ∧
    (c.content.kind = GoKind.struct_ ∨ c.content.kind = GoKind.array))

theorem deref_nil_ptr (g : Graph) (v : Option NodeId) (c : Cell)
    (hc : g.cellOf v = some c) (hcc : c.content = Content.ptr none) :
    deref g v = none := by
  unfold deref
  cases v with
  | none => simp [Graph.cellOf] at hc
  | some i =>
    unfold derefN
    simp only [hc, hcc]

theorem deref_nil_iface (g : Graph) (v : Option NodeId) (c : Cell)
    (hc : g.cellOf v = some c) (hcc : c.content = Content.iface none) :
    deref g v = none := by
  unfold deref
  cases v with
  | none => simp [Graph.cellOf] at hc
  | some i =>
    unfold derefN
    simp only [hc, hcc]

theorem deref_non_indirect (g : Graph) (v : Option NodeId) (c : Cell)
    (hc : g.cellOf v = some c)
    (hk : c.content.kind = GoKind.struct_ ∨ c.content.kind = GoKind.array) :
    deref g v = v := by
  unfold deref derefN
  simp only [hc]
  cases hcc : c.content with
  | ptr t => rw [hcc] at hk; simp [Content.kind] at hk
  | iface t => rw [hcc] at hk; simp [Content.kind] at hk
  | _ => simp [hcc]

theorem rawKeyPlan_untrackable (g : Graph) (v : Option NodeId)
    (h : Untrackable g v) : rawKeyPlan g v = none := by
  rcases h with ⟨c, hc, hcc⟩ | ⟨c, hc, hcc⟩ | ⟨c, hc, hna, hk⟩
  · unfold rawKeyPlan
    rw [deref_nil_ptr g v c hc hcc]
    simp [Graph.cellOf]
  · unfold rawKeyPlan
    rw [deref_nil_iface g v c hc hcc]
    simp [Graph.cellOf]
  · unfold rawKeyPlan
    rw [deref_non_indirect g v c hc hk, hc]
    simp only [hna, Bool.false_eq_true, if_false]
    cases hcc : c.content with
    | struct_ fs => simp
    | array es => simp
    | prim p => cases p <;> simp [hcc, Content.kind] at hk
    | ptr t => simp [hcc, Content.kind] at hk
    | iface t => simp [hcc, Content.kind] at hk
    | slice h es => simp [hcc, Content.kind] at hk
    | map_ h es => simp [hcc, Content.kind] at hk
    | chan h => simp [hcc, Content.kind] at hk
    | func_ h => simp [hcc, Content.kind] at hk

/-- Claim C9: for an occurrence without derivable identity — a nil
pointer, a nil interface, or a non-addressable non-primitive non-reference
value — `getRawKey` returns not-ok without touching the state, and
`processValue` returns with the whole tracking state unchanged. -/
theorem untrackable_excluded_without_failure (g : Graph) (st : DState)
    (v : Option NodeId) (level : Nat) (h : Untrackable g v) :
    (getRawKey g st v).1 = none ∧ (getRawKey g st v).2 = st ∧
    processValue g st v level = st := by
  have hplan := rawKeyPlan_untrackable g v h
  have h1 : getRawKey g st v = (none, st) := by
    unfold getRawKey
    rw [hplan]
    rfl
  refine ⟨by rw [h1], by rw [h1], ?_⟩
  unfold processValue
  rcases h with ⟨c, hc, hcc⟩ | ⟨c, hc, hcc⟩ | ⟨c, hc, hna, hk⟩
  · rw [deref_nil_ptr g v c hc hcc]
    simp [isValidV, Graph.cellOf]
  · rw [deref_nil_iface g v c hc hcc]
    simp [isValidV, Graph.cellOf]
  · rw [deref_non_indirect g v c hc hk]
    have hval : isValidV g v = true := by simp [isValidV, hc]
    simp only [hval, if_true, h1]

/-- A lone nil pointer occurrence. -/
def gC9 : Graph := ⟨[⟨⟨"*int", 8⟩, true, 64, true, .ptr none⟩]⟩

/-- Witness for C9: a nil pointer occurrence is excluded from tracking and
`processValue` is a no-op on it. -/
theorem untrackable_excluded_without_failure_witness :
    Untrackable gC9 (some 0) ∧
    (getRawKey gC9 DState.empty (some 0)).1 = none ∧
    (getRawKey gC9 DState.empty (some 0)).2 = DState.empty ∧
    processValue gC9 DState.empty (some 0) 0 = DState.empty := by
  have hu : Untrackable gC9 (some 0) := by
    left
    exact ⟨⟨⟨"*int", 8⟩, true, 64, true, .ptr none⟩, rfl, rfl⟩
  have h := untrackable_excluded_without_failure gC9 DState.empty (some 0) 0 hu
  exact ⟨hu, h.1, h.2.1, h.2.2⟩

/-! ### Claim C3 -/

/-- The ordered comparison exactly as the specification states it: a
non-pointer occurrence beats a pointer occurrence; among two pointers,
strictly lower indirection wins; among two pointers of equal indirection or
two non-pointers, strictly lower BFS depth wins; every tie keeps the
incumbent. -/
def SpecBetter (inc : DefPoint) (curIsPtr : Bool) (curInd curLevel : Nat) :
    Prop :=
  (inc.isPointerRef = true ∧ curIsPtr = false) ∨
  (inc.isPointerRef = true ∧ curIsPtr = true ∧ curInd < inc.indirectionLevel) ∨
  (((inc.isPointerRef = true ∧ curIsPtr = true ∧ curInd = inc.indirectionLevel) ∨
    (inc.isPointerRef = false ∧ curIsPtr = false)) ∧ curLevel < inc.level)

instance (inc : DefPoint) (curIsPtr : Bool) (curInd curLevel : Nat) :
    Decidable (SpecBetter inc curIsPtr curInd curLevel) := by
  unfold SpecBetter
  infer_instance

theorem defPointCompare_eq_specBetter (inc : DefPoint) (p : Bool)
    (i l : Nat) : defPointCompare inc p i l = true ↔ SpecBetter inc p i l := by
  unfold defPointCompare SpecBetter
  cases hip : inc.isPointerRef <;> cases p <;> simp

/-- Claim C3: during `determineDefinitionPoints`, an occurrence whose root
already has a recorded definition point replaces it exactly when it is
strictly better under the ordered comparison (non-pointer beats pointer,
then lower indirection among pointers, then lower BFS depth, ties keeping
the incumbent). -/
theorem defPoint_replaced_iff_strictly_better (g : Graph)
    (st st1 st2 st3 : DState) (v : Option NodeId) (level : Nat)
    (rk root : CKey) (id : String) (inc : DefPoint) (ik : CKey)
    (h1 : getRawKey g st v = (some rk, st1))
    (h2 : findRootSt st1 rk = (root, st2))
    (h3 : lookupA st2.referenceIDs root = some id)
    (h4 : lookupA st2.definitionPoints root = some inc)
    (h5 : getInstanceKey g st2 v = (some ik, st3)) :
    lookupA (updateDefPoint g st v level).definitionPoints root =
      some (if SpecBetter inc (isPointerRef g v) (getIndirectionLevel g v) level
            then mkDefPoint g ik v level else inc) := by
  unfold updateDefPoint
  rw [h1]
  simp only [h2]
  unfold defUpdate defBetter
  rw [h3, h4]
  simp only
  split
  · next hcmp =>
    rw [h5]
    simp only
    rw [if_pos ((defPointCompare_eq_specBetter _ _ _ _).mp hcmp)]
    exact lookupA_setA_self _ _ _
  · next hcmp =>
    rw [if_neg (fun hb => hcmp ((defPointCompare_eq_specBetter _ _ _ _).mpr hb))]
    exact h4

/-- Witness data for C3: a single addressable int occurrence whose root has
an ID and a pointer-reached incumbent definition point; the non-pointer
occurrence is strictly better and replaces it. -/
def intTy : GoType := ⟨"int", 8⟩

def gC3 : Graph := ⟨[⟨intTy, true, 50, true, .prim (.i 5)⟩]⟩

def incC3 : DefPoint := ⟨⟨99, intTy⟩, true, 1, 0, intTy⟩

def stC3 : DState :=
  { DState.empty with
    referenceIDs := [(⟨50, intTy⟩, "&1")],
    definitionPoints := [(⟨50, intTy⟩, incC3)] }

def stC3b : DState := (findRootSt stC3 ⟨50, intTy⟩).2

/-- Witness for C3: a depth-0 non-pointer occurrence strictly beats a
pointer incumbent, so the recorded definition point is replaced. -/
theorem defPoint_replaced_iff_strictly_better_witness :
    lookupA (updateDefPoint gC3 stC3 (some 0) 0).definitionPoints ⟨50, intTy⟩ =
      some (if SpecBetter incC3 (isPointerRef gC3 (some 0))
                (getIndirectionLevel gC3 (some 0)) 0
            then mkDefPoint gC3 ⟨50, intTy⟩ (some 0) 0 else incC3) :=
  defPoint_replaced_iff_strictly_better gC3 stC3 stC3 stC3b stC3b (some 0) 0
    ⟨50, intTy⟩ ⟨50, intTy⟩ "&1" incC3 ⟨50, intTy⟩ rfl rfl (by decide)
    (by decide) rfl

/-! ### Claim C6 -/

theorem deref_of_cellOf_none (g : Graph) (w : Option NodeId)
    (h : g.cellOf w = none) : deref g w = none := by
  unfold deref derefN
  simp only [h]

theorem isPointerRef_false (g : Graph) (v : Option NodeId)
    (h1 : kindOf g v ≠ GoKind.ptr) (h2 : kindOf g v ≠ GoKind.iface) :
    isPointerRef g v = false := by
  unfold isPointerRef isPointerRefN
  cases hc : g.cellOf v with
  | none => rfl
  | some c =>
    simp only
    cases hcc : c.content with
    | ptr t => exact absurd (by simp [kindOf, hc, hcc, Content.kind]) h1
    | iface t => exact absurd (by simp [kindOf, hc, hcc, Content.kind]) h2
    | prim p => cases p <;> rfl
    | _ => rfl

theorem deref_keeps (g : Graph) (v : Option NodeId)
    (h1 : kindOf g v ≠ GoKind.ptr) (h2 : kindOf g v ≠ GoKind.iface)
    (h3 : kindOf g v ≠ GoKind.invalid) : deref g v = v := by
  unfold deref derefN
  cases hc : g.cellOf v with
  | none => exact absurd (by simp [kindOf, hc]) h3
  | some c =>
    simp only
    cases hcc : c.content with
    | ptr t => exact absurd (by simp [kindOf, hc, hcc, Content.kind]) h1
    | iface t => exact absurd (by simp [kindOf, hc, hcc, Content.kind]) h2
    | prim p => cases p <;> rfl
    | _ => rfl

theorem processIsPtr_slice_map (g : Graph) (v : Option NodeId)
    (h : kindOf g v = GoKind.slice ∨ kindOf g v = GoKind.map_)
    (hnil : isNilV g v = false) : processIsPtr g v = true := by
  have hp : isPointerRef g v = false := by
    apply isPointerRef_false <;> rcases h with h | h <;> rw [h] <;> decide
  unfold processIsPtr
  rw [hp]
  rcases h with h | h <;> rw [h] <;> simp [hnil]

theorem processIsPtr_chan_func (g : Graph) (v : Option NodeId)
    (h : kindOf g v = GoKind.chan ∨ kindOf g v = GoKind.func_) :
    processIsPtr g v = false := by
  have hp : isPointerRef g v = false := by
    apply isPointerRef_false <;> rcases h with h | h <;> rw [h] <;> decide
  unfold processIsPtr
  rw [hp]
  rcases h with h | h <;> rw [h] <;> simp

/-- What `processValue` records for a successfully keyed occurrence: the
fetched-or-created stats with the total count bumped, and — exactly when
the occurrence is classified pointer-like — the pointer count bumped and
the minimum pointer level updated. -/
theorem processValue_stats (g : Graph) (st : DState) (v : Option NodeId)
    (level : Nat) (key : CKey) (st1 : DState)
    (hv : isValidV g (deref g v) = true)
    (hraw : getRawKey g st (deref g v) = (some key, st1)) :
    lookupA (processValue g st v level).referenceStats key =
      some (if processIsPtr g v then
              { (getOrCreateStats g st1 key (deref g v) level).1 with
                totalReferencesCount :=
                  (getOrCreateStats g st1 key (deref g v) level).1.totalReferencesCount + 1,
                pointerReferencesCount :=
                  (getOrCreateStats g st1 key (deref g v) level).1.pointerReferencesCount + 1,
                minPointerRefLevel :=
                  if (getOrCreateStats g st1 key (deref g v) level).1.minPointerRefLevel = -1 ∨
                      (level : Int) < (getOrCreateStats g st1 key (deref g v) level).1.minPointerRefLevel
                  then (level : Int)
                  else (getOrCreateStats g st1 key (deref g v) level).1.minPointerRefLevel }
            else
              { (getOrCreateStats g st1 key (deref g v) level).1 with
                totalReferencesCount :=
                  (getOrCreateStats g st1 key (deref g v) level).1.totalReferencesCount + 1 }) := by
  cases hpp : processIsPtr g v with
  | true =>
    unfold processValue
    simp only [hv, if_true, hraw, hpp]
    split
    · split <;> exact lookupA_setA_self _ _ _
    · exact lookupA_setA_self _ _ _
  | false =>
    unfold processValue
    simp only [hv, if_true, hraw, hpp, Bool.false_eq_true, if_false]
    split
    · split <;> exact lookupA_setA_self _ _ _
    · exact lookupA_setA_self _ _ _

/-- Claim C6 (amended): `processValue` classifies exactly the non-nil maps
and slices among the reference-like containers as pointer-like — bumping
the pointer count and the minimum pointer depth exactly as for a true
pointer — while channel and function occurrences are never so classified
and only bump the total count. -/
theorem processValue_ref_container_classification (g : Graph) :
    (∀ (st : DState) (v : Option NodeId) (level : Nat) (key : CKey)
        (st1 : DState),
      (kindOf g v = GoKind.slice ∨ kindOf g v = GoKind.map_) →
      isNilV g v = false →
      getRawKey g st (deref g v) = (some key, st1) →
      lookupA (processValue g st v level).referenceStats key =
        some { (getOrCreateStats g st1 key (deref g v) level).1 with
               totalReferencesCount :=
                 (getOrCreateStats g st1 key (deref g v) level).1.totalReferencesCount + 1,
               pointerReferencesCount :=
                 (getOrCreateStats g st1 key (deref g v) level).1.pointerReferencesCount + 1,
               minPointerRefLevel :=
                 if (getOrCreateStats g st1 key (deref g v) level).1.minPointerRefLevel = -1 ∨
                     (level : Int) < (getOrCreateStats g st1 key (deref g v) level).1.minPointerRefLevel
                 then (level : Int)
                 else (getOrCreateStats g st1 key (deref g v) level).1.minPointerRefLevel }) ∧
    (∀ (st : DState) (v : Option NodeId) (level : Nat) (key : CKey)
        (st1 : DState),
      (kindOf g v = GoKind.chan ∨ kindOf g v = GoKind.func_) →
      getRawKey g st (deref g v) = (some key, st1) →
      lookupA (processValue g st v level).referenceStats key =
        some { (getOrCreateStats g st1 key (deref g v) level).1 with
               totalReferencesCount :=
                 (getOrCreateStats g st1 key (deref g v) level).1.totalReferencesCount + 1 }) := by
  constructor
  · intro st v level key st1 hkind hnil hraw
    have hv : isValidV g (deref g v) = true := by
      cases hcg : g.cellOf (deref g v) with
      | some c => simp [isValidV, hcg]
      | none =>
        exfalso
        have hd2 : deref g (deref g v) = none := deref_of_cellOf_none g _ hcg
        have hpl : rawKeyPlan g (deref g v) = none := by
          unfold rawKeyPlan
          rw [hd2]
          simp [Graph.cellOf]
        unfold getRawKey at hraw
        rw [hpl] at hraw
        simp [keyFromPlan] at hraw
    have := processValue_stats g st v level key st1 hv hraw
    rw [processIsPtr_slice_map g v hkind hnil] at this
    simpa using this
  · intro st v level key st1 hkind hraw
    have hv : isValidV g (deref g v) = true := by
      cases hcg : g.cellOf (deref g v) with
      | some c => simp [isValidV, hcg]
      | none =>
        exfalso
        have hd2 : deref g (deref g v) = none := deref_of_cellOf_none g _ hcg
        have hpl : rawKeyPlan g (deref g v) = none := by
          unfold rawKeyPlan
          rw [hd2]
          simp [Graph.cellOf]
        unfold getRawKey at hraw
        rw [hpl] at hraw
        simp [keyFromPlan] at hraw
    have := processValue_stats g st v level key st1 hv hraw
    rw [processIsPtr_chan_func g v hkind] at this
    simpa using this

/-- A non-nil channel occurrence. -/
def chanTy : GoType := ⟨"chan int", 8⟩

def gChan : Graph := ⟨[⟨chanTy, true, 100, true, .chan (some 700)⟩]⟩

/-- Counterexample for C6 as stated: a non-nil channel occurrence is not
classified pointer-like — its stats keep a zero pointer count and the
untouched `-1` minimum pointer level, with only the total count bumped. -/
theorem processValue_chan_not_pointer_like_cex :
    processIsPtr gChan (some 0) = false ∧
    isNilV gChan (some 0) = false ∧
    (lookupA (processValue gChan DState.empty (some 0) 0).referenceStats
        ⟨100, chanTy⟩).map
      (fun s => (s.pointerReferencesCount, s.totalReferencesCount,
        s.minPointerRefLevel)) = some (0, 1, -1) := by
  refine ⟨by decide, by decide, ?_⟩
  rfl

/-- A non-nil slice occurrence over one int element. -/
def sliceTy : GoType := ⟨"[]int", 24⟩

def gC6 : Graph :=
  ⟨[⟨sliceTy, true, 100, true, .slice (some 600) [1]⟩,
    ⟨intTy, true, 108, true, .prim (.i 3)⟩]⟩

/-- Witness for C6 (amended): a non-nil slice occurrence is classified
pointer-like and gets pointer count and minimum pointer depth updates. -/
theorem processValue_ref_container_classification_witness :
    lookupA (processValue gC6 DState.empty (some 0) 2).referenceStats
        ⟨100, sliceTy⟩ =
      some { (getOrCreateStats gC6 DState.empty ⟨100, sliceTy⟩
                (deref gC6 (some 0)) 2).1 with
             totalReferencesCount :=
               (getOrCreateStats gC6 DState.empty ⟨100, sliceTy⟩
                 (deref gC6 (some 0)) 2).1.totalReferencesCount + 1,
             pointerReferencesCount :=
               (getOrCreateStats gC6 DState.empty ⟨100, sliceTy⟩
                 (deref gC6 (some 0)) 2).1.pointerReferencesCount + 1,
             minPointerRefLevel :=
               if (getOrCreateStats gC6 DState.empty ⟨100, sliceTy⟩
                     (deref gC6 (some 0)) 2).1.minPointerRefLevel = -1 ∨
                   ((2 : Nat) : Int) < (getOrCreateStats gC6 DState.empty ⟨100, sliceTy⟩
                     (deref gC6 (some 0)) 2).1.minPointerRefLevel
               then ((2 : Nat) : Int)
               else (getOrCreateStats gC6 DState.empty ⟨100, sliceTy⟩
                 (deref gC6 (some 0)) 2).1.minPointerRefLevel } :=
  (processValue_ref_container_classification gC6).1 DState.empty (some 0) 2
    ⟨100, sliceTy⟩ DState.empty (Or.inl (by decide)) (by decide) rfl

/-! ### Claim C7 -/

/-- All keys appearing in a list of fingerprint groups. -/
def groupMembers : List (String × List CKey) → List CKey
  | [] => []
  | (_, ks) :: rest => ks ++ groupMembers rest

theorem mem_groupMembers_appendGroup (acc : List (String × List CKey))
    (fp : String) (k' k : CKey) :
    k ∈ groupMembers (appendGroup acc fp k') ↔ k ∈ groupMembers acc ∨ k = k' := by
  induction acc with
  | nil => simp [appendGroup, groupMembers]
  | cons hd tl ih =>
    by_cases h : fp = hd.1
    · simp only [appendGroup, h, if_pos, groupMembers, List.mem_append,
        List.mem_singleton]
      tauto
    · simp only [appendGroup, h, if_neg, ite_false, groupMembers,
        List.mem_append, ih]
      tauto

/-- The skip condition of the `valueToKeys` grouping: stats of struct kind
with a zero-sized key type. -/
def skipsKey (k : CKey) (stats : RefStats) : Prop :=
  stats.valueKind = GoKind.struct_ ∧ k.ty.size = 0

instance (k : CKey) (stats : RefStats) : Decidable (skipsKey k stats) := by
  unfold skipsKey
  infer_instance

theorem mem_groupMembers_fold (l : List (CKey × RefStats))
    (acc : List (String × List CKey)) (k : CKey) :
    k ∈ groupMembers (l.foldl
      (fun acc kv =>
        if kv.2.valueKind = GoKind.struct_ ∧ kv.1.ty.size = 0 then acc
        else appendGroup acc (fingerprint kv.2.value) kv.1) acc) ↔
    k ∈ groupMembers acc ∨ ∃ s, (k, s) ∈ l ∧ ¬ skipsKey k s := by
  induction l generalizing acc with
  | nil => simp
  | cons hd tl ih =>
    simp only [List.foldl_cons]
    by_cases h : hd.2.valueKind = GoKind.struct_ ∧ hd.1.ty.size = 0
    · rw [if_pos h]
      rw [ih]
      constructor
      · rintro (h1 | ⟨s, hs1, hs2⟩)
        · exact Or.inl h1
        · exact Or.inr ⟨s, List.mem_cons_of_mem _ hs1, hs2⟩
      · rintro (h1 | ⟨s, hs1, hs2⟩)
        · exact Or.inl h1
        · rcases List.mem_cons.mp hs1 with heq | hmem
          · exfalso
            apply hs2
            have : k = hd.1 ∧ s = hd.2 := by
              constructor
              · exact congrArg Prod.fst heq
              · exact congrArg Prod.snd heq
            rw [this.1, this.2]
            exact h
          · exact Or.inr ⟨s, hmem, hs2⟩
    · rw [if_neg h]
      rw [ih]
      rw [mem_groupMembers_appendGroup]
      constructor
      · rintro ((h1 | h1) | ⟨s, hs1, hs2⟩)
        · exact Or.inl h1
        · subst h1
          exact Or.inr ⟨hd.2, List.mem_cons_self _ _, fun hsk => h hsk⟩
        · exact Or.inr ⟨s, List.mem_cons_of_mem _ hs1, hs2⟩
      · rintro (h1 | ⟨s, hs1, hs2⟩)
        · exact Or.inl (Or.inl h1)
        · rcases List.mem_cons.mp hs1 with heq | hmem
          · exact Or.inl (Or.inr (congrArg Prod.fst heq))
          · exact Or.inr ⟨s, hmem, hs2⟩

theorem lookupA_of_mem_nodup {α β : Type} [DecidableEq α]
    (m : List (α × β)) (k : α) (b : β) (hmem : (k, b) ∈ m)
    (hnd : (m.map Prod.fst).Nodup) : lookupA m k = some b := by
  induction m with
  | nil => simp at hmem
  | cons hd tl ih =>
    rw [List.map_cons] at hnd
    have hnd' := List.nodup_cons.mp hnd
    rcases List.mem_cons.mp hmem with heq | hmem2
    · have h1 : k = hd.1 := congrArg Prod.fst heq
      have h2 : b = hd.2 := congrArg Prod.snd heq
      simp [lookupA, h1, h2]
    · have hk : k ≠ hd.1 := by
        intro hkk
        exact hnd'.1 (hkk ▸ List.mem_map_of_mem Prod.fst hmem2)
      simp only [lookupA, hk, if_false]
      exact ih hmem2 hnd'.2

/-- Claim C7 (amended): `unifyAllCopies`' fingerprint grouping excludes
exactly the zero-sized struct values; zero-sized composites of any other
kind (for example a zero-length array) do participate in the grouping.  A
tracked key appears in the groups iff it is not a zero-sized struct. -/
theorem fingerprint_grouping_skips_only_zero_sized_structs (st : DState)
    (k : CKey) (stats : RefStats)
    (hnd : (st.referenceStats.map Prod.fst).Nodup)
    (hmem : (k, stats) ∈ st.referenceStats) :
    k ∈ groupMembers (fingerprintGroups st) ↔ ¬ skipsKey k stats := by
  unfold fingerprintGroups
  rw [mem_groupMembers_fold]
  simp only [groupMembers, List.not_mem_nil, false_or]
  constructor
  · rintro ⟨s, hs1, hs2⟩
    have heq : s = stats := by
      have e1 := lookupA_of_mem_nodup _ _ _ hs1 hnd
      have e2 := lookupA_of_mem_nodup _ _ _ hmem hnd
      rw [e1] at e2
      exact Option.some.inj e2
    rw [← heq]
    exact hs2
  · intro h
    exact ⟨stats, hmem, h⟩

/-- A zero-sized array type. -/
def arrTy : GoType := ⟨"[0]int", 0⟩

def gZeroArr : Graph :=
  ⟨[⟨⟨"*[0]int", 8⟩, true, 100, true, .ptr (some 1)⟩,
    ⟨arrTy, true, 200, true, .array []⟩,
    ⟨arrTy, true, 300, true, .array []⟩]⟩

/-- Counterexample for C7 as stated: two distinct zero-length-array values
— zero-sized composites — are grouped by the fingerprint heuristic and
merged by `unifyAllCopies` into one union-find class. -/
theorem unify_merges_zero_sized_arrays_cex :
    arrTy.size = 0 ∧
    ((⟨200, arrTy⟩ : CKey) ≠ ⟨300, arrTy⟩) ∧
    ((lookupA (preScanAll gZeroArr 64 [some 0, some 2] DState.empty).1.referenceStats
        ⟨200, arrTy⟩).map (fun s => s.valueKind) = some GoKind.array) ∧
    ((lookupA (preScanAll gZeroArr 64 [some 0, some 2] DState.empty).1.referenceStats
        ⟨300, arrTy⟩).map (fun s => s.valueKind) = some GoKind.array) ∧
    (findRootSt (preScanAll gZeroArr 64 [some 0, some 2] DState.empty).1
        ⟨200, arrTy⟩).1 ≠
      (findRootSt (preScanAll gZeroArr 64 [some 0, some 2] DState.empty).1
        ⟨300, arrTy⟩).1 ∧
    (findRootSt (unifyAllCopies
        (preScanAll gZeroArr 64 [some 0, some 2] DState.empty).1) ⟨200, arrTy⟩).1 =
      (findRootSt (unifyAllCopies
        (preScanAll gZeroArr 64 [some 0, some 2] DState.empty).1) ⟨300, arrTy⟩).1 := by
  refine ⟨rfl, by decide, rfl, rfl, by decide, by decide⟩

/-- Witness for C7 (amended): a zero-sized struct entry is excluded from
the fingerprint groups. -/
def zeroStructTy : GoType := ⟨"struct {}", 0⟩

def stC7 : DState :=
  { DState.empty with
    referenceStats :=
      [(⟨400, zeroStructTy⟩,
        { pointerReferencesCount := 2, definitionLevel := 0,
          minPointerRefLevel := 0, totalReferencesCount := 2,
          valueKind := .struct_, isPrimitive := false,
          value := .structS zeroStructTy [] })] }

/-- Witness for C7 (amended): a tracked zero-sized struct key never
appears in the fingerprint groups. -/
theorem fingerprint_grouping_skips_only_zero_sized_structs_witness :
    ¬ ((⟨400, zeroStructTy⟩ : CKey) ∈ groupMembers (fingerprintGroups stC7)) := by
  have h := fingerprint_grouping_skips_only_zero_sized_structs stC7
    ⟨400, zeroStructTy⟩
    { pointerReferencesCount := 2, definitionLevel := 0,
      minPointerRefLevel := 0, totalReferencesCount := 2,
      valueKind := .struct_, isPrimitive := false,
      value := .structS zeroStructTy [] }
    (by simp [stC7, DState.empty])
    (by simp [stC7, DState.empty])
  intro hmem
  exact (h.mp hmem) (by constructor <;> rfl)

/-! ### Claims C1 and C4 -/

theorem lookupA_append_single_isSome {α β : Type} [DecidableEq α]
    (ids : List (α × β)) (k0 k : α) (s : β) :
    (lookupA (ids ++ [(k0, s)]) k).isSome = true ↔
      (lookupA ids k).isSome = true ∨ k = k0 := by
  cases h : lookupA ids k with
  | some b => simp [lookupA_append_left _ _ _ _ h]
  | none =>
    rw [lookupA_append_none _ _ _ h]
    by_cases hk : k = k0 <;> simp [lookupA, hk, h]

theorem getMergedStats_fold_referenceIDs :
    ∀ (l : List (CKey × RefStats)) (acc : List (CKey × List CKey) × DState),
      ((l.foldl
        (fun (acc : List (CKey × List CKey) × DState) kv =>
          let pr := findRootSt acc.2 kv.1
          (appendGroup acc.1 pr.1 kv.1, pr.2)) acc).2).referenceIDs =
        acc.2.referenceIDs := by
  intro l
  induction l with
  | nil => intro acc; rfl
  | cons hd tl ih =>
    intro acc
    rw [List.foldl_cons, ih]
    rfl

theorem getMergedStats_referenceIDs (st : DState) :
    (getMergedStats st).2.referenceIDs = st.referenceIDs := by
  unfold getMergedStats
  exact getMergedStats_fold_referenceIDs st.referenceStats ([], st)

theorem qualifiesB_mem (merged : List (CKey × RefStats)) (k : CKey)
    (h : qualifiesB merged k = true) : k ∈ merged.map Prod.fst := by
  rw [← lookupA_isSome_iff_mem]
  cases hl : lookupA merged k with
  | some s => rfl
  | none =>
    exfalso
    unfold qualifiesB at h
    rw [hl] at h
    simp [RefStats.zero] at h

theorem assignLoop_isSome (merged : List (CKey × RefStats)) :
    ∀ (ks : List CKey) (n : Nat) (ids : List (CKey × String)) (k : CKey),
      (lookupA (assignLoop merged ks n ids) k).isSome = true ↔
        (lookupA ids k).isSome = true ∨
          (k ∈ ks ∧ qualifiesB merged k = true) := by
  intro ks
  induction ks with
  | nil => intro n ids k; simp [assignLoop]
  | cons k' ks ih =>
    intro n ids k
    unfold assignLoop
    by_cases hq : qualifiesB merged k' = true
    · rw [if_pos hq]
      cases hlk : lookupA ids k' with
      | some s =>
        simp only
        rw [ih]
        by_cases hkk : k = k'
        · subst hkk
          simp [hlk, hq]
        · simp only [List.mem_cons, hkk, false_or]
      | none =>
        simp only
        rw [ih]
        rw [lookupA_append_single_isSome]
        by_cases hkk : k = k'
        · subst hkk
          simp [hq, hlk]
        · simp only [List.mem_cons, hkk, false_or, or_false]
    · rw [if_neg hq]
      rw [ih]
      by_cases hkk : k = k'
      · subst hkk
        simp [hq]
      · simp only [List.mem_cons, hkk, false_or]

/-- Claim C1: after `assignReferenceIDs` (run with the empty ID map that
`resetState` guarantees), a key carries a visible reference ID iff its
merged statistics satisfy the sharing rule: pointer references > 1, or
pointer references > 0 with strictly more total than pointer references;
keys not meeting the rule never appear in the map. -/
theorem assignReferenceIDs_id_iff_qualifies (st : DState) (k : CKey)
    (h : st.referenceIDs = []) :
    (lookupA (assignReferenceIDs st).referenceIDs k).isSome = true ↔
      qualifiesB (getMergedStats st).1 k = true := by
  have hids : (getMergedStats st).2.referenceIDs = [] := by
    rw [getMergedStats_referenceIDs, h]
  show (lookupA (assignLoop (getMergedStats st).1
      (List.insertionSort keyLE ((getMergedStats st).1.map Prod.fst)) 1
      (getMergedStats st).2.referenceIDs) k).isSome = true ↔ _
  rw [hids, assignLoop_isSome]
  simp only [lookupA, Option.isSome_none, Bool.false_eq_true, false_or]
  constructor
  · rintro ⟨_, hq⟩
    exact hq
  · intro hq
    refine ⟨?_, hq⟩
    rw [(List.perm_insertionSort keyLE _).mem_iff]
    exact qualifiesB_mem _ _ hq

/-- Witness for C1: a state with one doubly-pointed key and one
singly-referenced key; only the former gets an ID. -/
def kA : CKey := ⟨10, intTy⟩

def kB : CKey := ⟨20, intTy⟩

def stC1 : DState :=
  { DState.empty with
    referenceStats :=
      [(kA, { pointerReferencesCount := 2, definitionLevel := 0,
              minPointerRefLevel := 0, totalReferencesCount := 2,
              valueKind := .int_, isPrimitive := true, value := .prim intTy (.i 5) }),
       (kB, { pointerReferencesCount := 1, definitionLevel := 0,
              minPointerRefLevel := 0, totalReferencesCount := 1,
              valueKind := .int_, isPrimitive := true, value := .prim intTy (.i 6) })] }

/-- Witness for C1: of two concrete keys, the doubly-pointed one gets an
ID and the singly-pointed one does not, matching the qualification rule. -/
theorem assignReferenceIDs_id_iff_qualifies_witness :
    ((lookupA (assignReferenceIDs stC1).referenceIDs kA).isSome = true ↔
      qualifiesB (getMergedStats stC1).1 kA = true) ∧
    ((lookupA (assignReferenceIDs stC1).referenceIDs kB).isSome = true ↔
      qualifiesB (getMergedStats stC1).1 kB = true) ∧
    qualifiesB (getMergedStats stC1).1 kA = true ∧
    qualifiesB (getMergedStats stC1).1 kB = false :=
  ⟨assignReferenceIDs_id_iff_qualifies stC1 kA rfl,
   assignReferenceIDs_id_iff_qualifies stC1 kB rfl,
   by decide, by decide⟩

/-- Sequential labels "&n", "&n+1", … attached to a list of keys in
order. -/
def labelsFrom : Nat → List CKey → List (CKey × String)
  | _, [] => []
  | n, k :: ks => (k, "&" ++ toString n) :: labelsFrom (n + 1) ks

theorem assignLoop_eq_labelsFrom (merged : List (CKey × RefStats)) :
    ∀ (ks : List CKey) (n : Nat) (ids : List (CKey × String)),
      ks.Nodup → (∀ k ∈ ks, lookupA ids k = none) →
      assignLoop merged ks n ids =
        ids ++ labelsFrom n (ks.filter (fun k => qualifiesB merged k)) := by
  intro ks
  induction ks with
  | nil => intro n ids _ _; simp [assignLoop, labelsFrom]
  | cons k' ks ih =>
    intro n ids hnd hids
    have hnd' := List.nodup_cons.mp hnd
    unfold assignLoop
    by_cases hq : qualifiesB merged k' = true
    · rw [if_pos hq]
      rw [hids k' (List.mem_cons_self _ _)]
      simp only
      have hids' : ∀ k ∈ ks, lookupA (ids ++ [(k', "&" ++ toString n)]) k = none := by
        intro k hk
        have hkne : k ≠ k' := fun hkk => hnd'.1 (hkk ▸ hk)
        rw [lookupA_append_none _ _ _ (hids k (List.mem_cons_of_mem _ hk))]
        simp [lookupA, hkne]
      rw [ih (n + 1) (ids ++ [(k', "&" ++ toString n)]) hnd'.2 hids']
      have hfil : (k' :: ks).filter (fun k => qualifiesB merged k) =
          k' :: ks.filter (fun k => qualifiesB merged k) := by simp [hq]
      rw [hfil, labelsFrom]
      simp
    · rw [if_neg hq]
      rw [ih n ids hnd'.2 (fun k hk => hids k (List.mem_cons_of_mem _ hk))]
      have hfil : (k' :: ks).filter (fun k => qualifiesB merged k) =
          ks.filter (fun k => qualifiesB merged k) := by simp [hq]
      rw [hfil]

theorem appendGroup_keys_mem {α : Type} [DecidableEq α]
    (acc : List (α × List CKey)) (fp : α) (k : CKey) (x : α) :
    x ∈ (appendGroup acc fp k).map Prod.fst ↔
      x ∈ acc.map Prod.fst ∨ x = fp := by
  induction acc with
  | nil => simp [appendGroup]
  | cons hd tl ih =>
    by_cases h : fp = hd.1
    · subst h
      simp [appendGroup]
      tauto
    · simp [appendGroup, h, ih]
      tauto

theorem appendGroup_keys_nodup {α : Type} [DecidableEq α]
    (acc : List (α × List CKey)) (fp : α) (k : CKey)
    (h : (acc.map Prod.fst).Nodup) :
    ((appendGroup acc fp k).map Prod.fst).Nodup := by
  induction acc with
  | nil => simp [appendGroup]
  | cons hd tl ih =>
    rw [List.map_cons] at h
    have h' := List.nodup_cons.mp h
    by_cases hf : fp = hd.1
    · subst hf
      rw [appendGroup, if_pos rfl, List.map_cons]
      exact List.nodup_cons.mpr h'
    · rw [appendGroup, if_neg hf, List.map_cons]
      refine List.nodup_cons.mpr ⟨?_, ih h'.2⟩
      intro hmem
      rcases (appendGroup_keys_mem tl fp k hd.1).mp hmem with hmem2 | hmem2
      · exact h'.1 hmem2
      · exact hf hmem2.symm

theorem getMergedStats_fold_keys_nodup :
    ∀ (l : List (CKey × RefStats)) (acc : List (CKey × List CKey) × DState),
      (acc.1.map Prod.fst).Nodup →
      (((l.foldl
        (fun (acc : List (CKey × List CKey) × DState) kv =>
          let pr := findRootSt acc.2 kv.1
          (appendGroup acc.1 pr.1 kv.1, pr.2)) acc).1).map Prod.fst).Nodup := by
  intro l
  induction l with
  | nil => intro acc h; exact h
  | cons hd tl ih =>
    intro acc h
    rw [List.foldl_cons]
    exact ih _ (appendGroup_keys_nodup _ _ _ h)

theorem map_fst_map_pair (l : List (CKey × List CKey))
    (f : CKey × List CKey → RefStats) :
    ((l.map (fun rm => (rm.1, f rm))).map Prod.fst) = l.map Prod.fst := by
  induction l with
  | nil => rfl
  | cons hd tl ih => simp [ih]

theorem mergedKeys_nodup (st : DState) :
    (((getMergedStats st).1).map Prod.fst).Nodup := by
  unfold getMergedStats
  simp only
  rw [map_fst_map_pair]
  exact getMergedStats_fold_keys_nodup st.referenceStats ([], st) (by simp)

instance : IsTrans CKey keyLE := by
  constructor
  intro a b c hab hbc
  unfold keyLE at *
  rcases hab with h1 | ⟨h1, h2⟩ <;> rcases hbc with h3 | ⟨h3, h4⟩
  · left; omega
  · left; omega
  · left; omega
  · right; exact ⟨h1.trans h3, le_trans h2 h4⟩

instance : IsTotal CKey keyLE := by
  constructor
  intro a b
  unfold keyLE
  rcases Nat.lt_trichotomy a.addr b.addr with h | h | h
  · left; left; exact h
  · rcases le_total a.ty.name b.ty.name with hs | hs
    · left; right; exact ⟨h, hs⟩
    · right; right; exact ⟨h.symm, hs⟩
  · right; left; exact h

/-- Claim C4: with the empty initial ID map, `assignReferenceIDs` labels
exactly the qualifying roots, in the deterministic order sorted by
ascending address with ties broken by ascending type name, with the
sequential gap-free labels "&1", "&2", …  (In this embedding the whole
pass is a pure function of the state, so two runs on the same merged
statistics produce identical assignments by construction.) -/
theorem assignReferenceIDs_sorted_sequential (st : DState)
    (h : st.referenceIDs = []) :
    ∃ ks : List CKey,
      List.Sorted keyLE ks ∧
      (∀ k, k ∈ ks ↔ qualifiesB (getMergedStats st).1 k = true) ∧
      (assignReferenceIDs st).referenceIDs = labelsFrom 1 ks := by
  refine ⟨(List.insertionSort keyLE ((getMergedStats st).1.map Prod.fst)).filter
      (fun k => qualifiesB (getMergedStats st).1 k), ?_, ?_, ?_⟩
  · exact List.Sorted.filter _ (List.sorted_insertionSort keyLE _)
  · intro k
    rw [List.mem_filter]
    constructor
    · rintro ⟨_, hq⟩
      exact hq
    · intro hq
      refine ⟨?_, hq⟩
      rw [(List.perm_insertionSort keyLE _).mem_iff]
      exact qualifiesB_mem _ _ hq
  · have hids : (getMergedStats st).2.referenceIDs = [] := by
      rw [getMergedStats_referenceIDs, h]
    show assignLoop (getMergedStats st).1
      (List.insertionSort keyLE ((getMergedStats st).1.map Prod.fst)) 1
      (getMergedStats st).2.referenceIDs = _
    rw [hids]
    rw [assignLoop_eq_labelsFrom (getMergedStats st).1 _ 1 []
      (((List.perm_insertionSort keyLE _).nodup_iff).mpr (mergedKeys_nodup st))
      (fun k _ => rfl)]
    rw [List.nil_append]

/-- Witness for C4: on a concrete state only the doubly-pointed key
qualifies and the resulting map is exactly `[(kA, "&1")]`. -/
theorem assignReferenceIDs_sorted_sequential_witness :
    (∃ ks : List CKey,
      List.Sorted keyLE ks ∧
      (∀ k, k ∈ ks ↔ qualifiesB (getMergedStats stC1).1 k = true) ∧
      (assignReferenceIDs stC1).referenceIDs = labelsFrom 1 ks) ∧
    (assignReferenceIDs stC1).referenceIDs = [(kA, "&1")] :=
  ⟨assignReferenceIDs_sorted_sequential stC1 rfl, by decide⟩

/-! ### Claim C5 -/

theorem preScanLoop_log_nodup (g : Graph) :
    ∀ (fuel : Nat) (q : List QItem) (trav : List CKey) (st : DState),
      (preScanLoop g fuel q trav st).2.Nodup ∧
      ∀ k ∈ (preScanLoop g fuel q trav st).2, k ∉ trav := by
  intro fuel
  induction fuel with
  | zero => intro q trav st; simp [preScanLoop]
  | succ f ih =>
    intro q trav st
    match q with
    | [] => simp [preScanLoop]
    | it :: rest =>
      unfold preScanLoop
      split
      · simp only
        split
        · split
          · exact ih rest trav _
          · next key st2 heq =>
            split
            · exact ih rest trav st2
            · next hmem =>
              have hr := ih (addChildrenToQueue g rest it.v it.level)
                (key :: trav) st2
              constructor
              · refine List.nodup_cons.mpr ⟨?_, hr.1⟩
                intro hk
                exact (hr.2 key hk) (List.mem_cons_self _ _)
              · intro k hk
                rcases List.mem_cons.mp hk with rfl | hk2
                · exact hmem
                · intro hkt
                  exact (hr.2 k hk2) (List.mem_cons_of_mem _ hkt)
        · exact ih rest trav _
      · exact ih rest trav st

/-- Claim C5 (amended): within one `preScanBFS` invocation (one root
value), the children of any distinct composite — identified by its raw
canonical key — are expanded and enqueued at most once: the expansion log
never repeats a key. -/
theorem preScanBFS_expansions_at_most_once (g : Graph) (fuel : Nat)
    (st : DState) (v : Option NodeId) :
    (preScanBFS g fuel st v).2.Nodup :=
  (preScanLoop_log_nodup g fuel [⟨v, 0⟩] [] st).1

/-- The struct type shared by two roots below. -/
def tTy : GoType := ⟨"main.T", 8⟩

/-- Two root pointers to the same struct. -/
def gShared : Graph :=
  ⟨[⟨⟨"*main.T", 8⟩, true, 100, true, .ptr (some 2)⟩,
    ⟨⟨"*main.T", 8⟩, true, 108, true, .ptr (some 2)⟩,
    ⟨tTy, true, 200, true, .struct_ [3]⟩,
    ⟨intTy, true, 200, true, .prim (.i 7)⟩]⟩

/-- Counterexample for C5 as stated: `renderAllValues` runs `preScanBFS`
once per root value with a fresh `traversed` set, so a struct reachable
from two root pointers has its children expanded twice within one
top-level call. -/
theorem preScan_expansion_not_once_per_call_cex :
    (preScanAll gShared 64 [some 0, some 1] DState.empty).2 =
      [⟨200, tTy⟩, ⟨200, tTy⟩] ∧
    ¬ (preScanAll gShared 64 [some 0, some 1] DState.empty).2.Nodup := by
  constructor
  · rfl
  · decide

/-! ### Claim C2 -/

theorem keyFromPlan_some_v (g : Graph) (st st1 : DState) (v : Option NodeId)
    (k : CKey) (h : getInstanceKey g st v = (some k, st1)) : ∃ i, v = some i := by
  cases v with
  | some i => exact ⟨i, rfl⟩
  | none =>
    exfalso
    have : instKeyPlanN g (g.cells.length + 1) (none : Option NodeId) = none := by
      unfold instKeyPlanN
      rfl
    unfold getInstanceKey getInstanceKeyN at h
    rw [this] at h
    simp [keyFromPlan] at h

theorem defUpdate_cases (g : Graph) (st : DState) (root : CKey)
    (v : Option NodeId) (level : Nat) :
    FAExt st.fakeAddrs (defUpdate g st root v level).fakeAddrs ∧
    ((defUpdate g st root v level).definitionPoints = st.definitionPoints ∨
      ∃ dp i, v = some i ∧
        (defUpdate g st root v level).definitionPoints =
          setA st.definitionPoints root dp ∧
        InstWitness g (defUpdate g st root v level) i dp.instanceKey) := by
  unfold defUpdate
  split
  · exact ⟨FAExt_refl _, Or.inl rfl⟩
  · split
    · split
      · next ik st' heq =>
        have hfo := getInstanceKey_fakeOnly g st v
        rw [heq] at hfo
        obtain ⟨i, hv⟩ := keyFromPlan_some_v g st st' v ik heq
        refine ⟨hfo.2.2.2.2.2.2.2, Or.inr ⟨mkDefPoint g ik v level, i, hv, ?_, ?_⟩⟩
        · simp only
          rw [hfo.2.2.2.2.1]
        · have hw : InstWitness g st' i ik := by
            rw [hv] at heq
            exact InstWitness.establish heq
          exact hw.transport (fun k a hka => hka)
      · next st' heq =>
        have hfo := getInstanceKey_fakeOnly g st v
        rw [heq] at hfo
        exact ⟨hfo.2.2.2.2.2.2.2, Or.inl hfo.2.2.2.2.1⟩
    · exact ⟨FAExt_refl _, Or.inl rfl⟩

theorem updateDefPoint_cases (g : Graph) (st : DState) (v : Option NodeId)
    (level : Nat) :
    FAExt st.fakeAddrs (updateDefPoint g st v level).fakeAddrs ∧
    ((updateDefPoint g st v level).definitionPoints = st.definitionPoints ∨
      ∃ root dp i, v = some i ∧
        (updateDefPoint g st v level).definitionPoints =
          setA st.definitionPoints root dp ∧
        InstWitness g (updateDefPoint g st v level) i dp.instanceKey) := by
  unfold updateDefPoint
  split
  · next st1 heq =>
    have hfo := getRawKey_fakeOnly g st v
    rw [heq] at hfo
    exact ⟨hfo.2.2.2.2.2.2.2, Or.inl hfo.2.2.2.2.1⟩
  · next rk st1 heq =>
    have hfo := getRawKey_fakeOnly g st v
    rw [heq] at hfo
    have hfr := findRootSt_parts st1 rk
    have hdu := defUpdate_cases g (findRootSt st1 rk).2 (findRootSt st1 rk).1 v level
    have hext : FAExt st.fakeAddrs (findRootSt st1 rk).2.fakeAddrs := by
      rw [hfr.2.2.2.2.2.1]
      exact hfo.2.2.2.2.2.2.2
    refine ⟨FAExt_trans hext hdu.1, ?_⟩
    rcases hdu.2 with h1 | ⟨dp, i, hv, h2, h3⟩
    · left
      rw [h1, hfr.2.2.2.1, hfo.2.2.2.2.1]
    · right
      refine ⟨(findRootSt st1 rk).1, dp, i, hv, ?_, h3⟩
      rw [h2, hfr.2.2.2.1, hfo.2.2.2.2.1]

theorem defTraverse_parts (g : Graph) (rest : List QItem) (trav : List CKey)
    (st : DState) (v : Option NodeId) (level : Nat) :
    (defTraverse g rest trav st v level).2.2.definitionPoints =
      st.definitionPoints ∧
    FAExt st.fakeAddrs (defTraverse g rest trav st v level).2.2.fakeAddrs := by
  unfold defTraverse
  split
  · split
    · next s heq =>
      have hfo := getRawKey_fakeOnly g st (deref g v)
      rw [heq] at hfo
      exact ⟨hfo.2.2.2.2.1, hfo.2.2.2.2.2.2.2⟩
    · next tk s heq =>
      have hfo := getRawKey_fakeOnly g st (deref g v)
      rw [heq] at hfo
      split
      · exact ⟨hfo.2.2.2.2.1, hfo.2.2.2.2.2.2.2⟩
      · exact ⟨hfo.2.2.2.2.1, hfo.2.2.2.2.2.2.2⟩
  · exact ⟨rfl, FAExt_refl _⟩

theorem defLoop_exists (g : Graph) :
    ∀ (fuel : Nat) (q : List QItem) (trav : List CKey) (st : DState),
      FAExt st.fakeAddrs (defLoop g fuel q trav st).2.fakeAddrs ∧
      ∀ r dp,
        lookupA (defLoop g fuel q trav st).2.definitionPoints r = some dp →
        lookupA st.definitionPoints r = some dp ∨
        ∃ p ∈ (defLoop g fuel q trav st).1,
          InstWitness g (defLoop g fuel q trav st).2 p.1 dp.instanceKey := by
  intro fuel
  induction fuel with
  | zero => intro q trav st; exact ⟨FAExt_refl _, fun r dp h => Or.inl h⟩
  | succ f ih =>
    intro q trav st
    match q with
    | [] => exact ⟨FAExt_refl _, fun r dp h => Or.inl h⟩
    | it :: rest =>
      unfold defLoop
      cases hiv : it.v with
      | none =>
        simp only [hiv]
        exact ih rest trav st
      | some i =>
        simp only [hiv]
        split
        · exact ih rest trav st
        · split
          · next st1 heq =>
            have hfo := getRawKey_fakeOnly g st (some i)
            rw [heq] at hfo
            have hih := ih rest trav st1
            refine ⟨FAExt_trans hfo.2.2.2.2.2.2.2 hih.1, ?_⟩
            intro r dp h
            rcases hih.2 r dp h with h1 | h2
            · left
              rw [← hfo.2.2.2.2.1]
              exact h1
            · right
              exact h2
          · next rk0 st0 heq =>
            simp only
            have hup := updateDefPoint_cases g st (some i) it.level
            have htr := defTraverse_parts g rest trav
              (updateDefPoint g st (some i) it.level) (some i) it.level
            have hih := ih
              (defTraverse g rest trav (updateDefPoint g st (some i) it.level)
                (some i) it.level).1
              (defTraverse g rest trav (updateDefPoint g st (some i) it.level)
                (some i) it.level).2.1
              (defTraverse g rest trav (updateDefPoint g st (some i) it.level)
                (some i) it.level).2.2
            refine ⟨FAExt_trans hup.1 (FAExt_trans htr.2 hih.1), ?_⟩
            intro r dp h
            rcases hih.2 r dp h with h1 | h2
            · rw [htr.1] at h1
              rcases hup.2 with h3 | ⟨root, dpn, i0, hv0, h4, h5⟩
              · left
                rw [← h3]
                exact h1
              · have hii : i0 = i := by
                  injection hv0 with hinj
                  exact hinj.symm
                subst hii
                rw [h4] at h1
                rw [lookupA_setA] at h1
                by_cases hr : r = root
                · right
                  rw [if_pos hr] at h1
                  have hdd : dpn = dp := Option.some.inj h1
                  subst hdd
                  refine ⟨(i0, it.level), List.mem_cons_self _ _, ?_⟩
                  exact (h5.transport (FAExt_trans htr.2 hih.1))
                · left
                  rw [if_neg hr] at h1
                  exact h1
            · right
              obtain ⟨p, hp1, hp2⟩ := h2
              exact ⟨p, List.mem_cons_of_mem _ hp1, hp2⟩

theorem defPointsPass_exists (g : Graph) (fuel : Nat) :
    ∀ (roots : List (Option NodeId)) (st : DState),
      FAExt st.fakeAddrs (defPointsPass g fuel roots st).2.fakeAddrs ∧
      ∀ r dp,
        lookupA (defPointsPass g fuel roots st).2.definitionPoints r = some dp →
        lookupA st.definitionPoints r = some dp ∨
        ∃ p ∈ (defPointsPass g fuel roots st).1,
          InstWitness g (defPointsPass g fuel roots st).2 p.1 dp.instanceKey := by
  intro roots
  induction roots with
  | nil => intro st; exact ⟨FAExt_refl _, fun r dp h => Or.inl h⟩
  | cons v vs ih =>
    intro st
    unfold defPointsPass
    simp only
    have h1 := defLoop_exists g fuel [⟨v, 0⟩] [] st
    have h2 := ih (determineDefinitionPoints g fuel st v).2
    refine ⟨FAExt_trans h1.1 h2.1, ?_⟩
    intro r dp h
    rcases h2.2 r dp h with ha | hb
    · rcases h1.2 r dp ha with hc | hd
      · left
        exact hc
      · right
        obtain ⟨p, hp1, hp2⟩ := hd
        refine ⟨p, List.mem_append_left _ hp1, ?_⟩
        exact hp2.transport h2.1
    · right
      obtain ⟨p, hp1, hp2⟩ := hb
      exact ⟨p, List.mem_append_right _ hp1, hp2⟩

/-- Claim C2 (amended, existence half): after the definition-point pass,
every recorded definition point is witnessed by at least one traversed
occurrence whose instance key equals the recorded instance key. -/
theorem defPointsPass_definition_point_has_occurrence (g : Graph)
    (fuel : Nat) (roots : List (Option NodeId)) (st : DState) (r : CKey)
    (dp : DefPoint) (h0 : st.definitionPoints = [])
    (h : lookupA (defPointsPass g fuel roots st).2.definitionPoints r = some dp) :
    ∃ p ∈ (defPointsPass g fuel roots st).1,
      getInstanceKey g (defPointsPass g fuel roots st).2 (some p.1) =
        (some dp.instanceKey, (defPointsPass g fuel roots st).2) := by
  rcases (defPointsPass_exists g fuel roots st).2 r dp h with h1 | h2
  · rw [h0] at h1
    simp [lookupA] at h1
  · exact h2

/-- The uniqueness property claim C2 asserts, as a decidable check over
one analysis run: every ID'd root with a recorded definition point is
matched (on instance key, evaluated in the final state) by exactly one
traversed occurrence. -/
def c2UniquenessHolds (g : Graph) (fuel : Nat)
    (roots : List (Option NodeId)) : Bool :=
  let res := analyzeWithOccs g fuel roots DState.empty
  res.2.referenceIDs.all (fun rid =>
    match lookupA res.2.definitionPoints rid.1 with
    | some dp =>
      (res.1.filter (fun p =>
        (getInstanceKey g res.2 (some p.1)).1 = some dp.instanceKey)).length = 1
    | none => true)

/-- C2 counterexample data: a map holding the value 5 twice (two
non-addressable primitive occurrences sharing one synthetic location) and
a struct holding a pointer to an addressable 5.  Copy unification merges
the synthetic key with the pointed-to key, the merged root earns an ID,
and the chosen definition point is the shared synthetic instance key. -/
def strTy : GoType := ⟨"string", 16⟩

def mapTy : GoType := ⟨"map[string]int", 8⟩

def gC2 : Graph :=
  ⟨[⟨mapTy, true, 100, true, .map_ (some 500) [(1, 2), (3, 4)]⟩,
    ⟨strTy, false, 0, true, .prim (.s "a")⟩,
    ⟨intTy, false, 0, true, .prim (.i 5)⟩,
    ⟨strTy, false, 0, true, .prim (.s "b")⟩,
    ⟨intTy, false, 0, true, .prim (.i 5)⟩,
    ⟨⟨"main.S", 8⟩, true, 200, true, .struct_ [6]⟩,
    ⟨⟨"*int", 8⟩, true, 200, true, .ptr (some 7)⟩,
    ⟨intTy, true, 300, true, .prim (.i 5)⟩]⟩

set_option maxHeartbeats 4000000 in
/-- Counterexample for C2 as stated: on `gC2`, the root `(300, int)` gets
an ID and a definition point whose instance key is the synthetic location
of the primitive value 5 — and the two distinct map-value occurrences
(nodes 2 and 4) both match it, so the matching occurrence is not unique. -/
theorem defPoint_occurrence_not_unique_cex :
    c2UniquenessHolds gC2 24 [some 0, some 5] = false ∧
    lookupA (analyzeWithOccs gC2 24 [some 0, some 5] DState.empty).2.referenceIDs
      ⟨300, intTy⟩ = some "&1" ∧
    ((analyzeWithOccs gC2 24 [some 0, some 5] DState.empty).1.filter (fun p =>
      match lookupA (analyzeWithOccs gC2 24 [some 0, some 5]
          DState.empty).2.definitionPoints ⟨300, intTy⟩ with
      | some dp =>
        (getInstanceKey gC2 (analyzeWithOccs gC2 24 [some 0, some 5]
          DState.empty).2 (some p.1)).1 = some dp.instanceKey
      | none => false)) = [(2, 1), (4, 1)] := by
  refine ⟨by decide, by decide, by decide⟩

/-- The analysis state of `gC2` just before the definition-point pass. -/
def stPreC2 : DState :=
  assignReferenceIDs (unifyAllCopies
    (preScanAll gC2 24 [some 0, some 5] (resetState DState.empty)).1)

set_option maxHeartbeats 4000000 in
/-- Witness for C2 (amended): on `gC2` the recorded definition point of
the ID'd root is matched by at least one traversed occurrence. -/
theorem defPointsPass_definition_point_has_occurrence_witness :
    ∃ p ∈ (defPointsPass gC2 24 [some 0, some 5] stPreC2).1,
      getInstanceKey gC2 (defPointsPass gC2 24 [some 0, some 5] stPreC2).2
          (some p.1) =
        (some (⟨4294967041, intTy⟩ : CKey),
          (defPointsPass gC2 24 [some 0, some 5] stPreC2).2) := by
  have h := defPointsPass_definition_point_has_occurrence gC2 64
    [some 0, some 5] stPreC2 ⟨300, intTy⟩
    ⟨⟨4294967041, intTy⟩, false, 0, 1, intTy⟩ (by decide) (by decide)
  exact h



/-! ### Claim C8: the definition-point rendering protocol -/

/-- Is this event the ID-label event of the given root? -/
def isIdFor (root : CKey) : REvent → Bool
  | .idLabel r _ => decide (r = root)
  | _ => false

/-- Number of ID-label events of a root in an event stream. -/
def countId (root : CKey) (evs : List REvent) : Nat :=
  (evs.filter (isIdFor root)).length

/-- A work item is ID-safe for a root: a literal token it carries is not
that root's ID label.  The machine only pushes closing brackets as tokens,
so every item it generates is ID-safe. -/
def WOk (root : CKey) : WItem → Bool
  | .tok e => !isIdFor root e
  | _ => true

/-- Remaining ID-label budget of a root: one while its rendered flag is
unset, zero once the flag is set. -/
def rbudget (root : CKey) (st : DState) : Nat :=
  if (lookupA st.renderedIDs root).getD false then 0 else 1

theorem countId_append (root : CKey) (a b : List REvent) :
    countId root (a ++ b) = countId root a + countId root b := by
  simp [countId, List.filter_append]

theorem keyFromPlan_renderedIDs (st : DState) :
    ∀ p, (keyFromPlan st p).2.renderedIDs = st.renderedIDs
  | none => rfl
  | some (.inl _) => rfl
  | some (.inr pk) => by
    show (fakeAddrFor st pk).2.renderedIDs = st.renderedIDs
    unfold fakeAddrFor
    split
    · rfl
    · rfl

theorem getRawKey_renderedIDs (g : Graph) (st : DState) (v : Option NodeId) :
    (getRawKey g st v).2.renderedIDs = st.renderedIDs :=
  keyFromPlan_renderedIDs st _

theorem getInstanceKey_renderedIDs (g : Graph) (st : DState) (v : Option NodeId) :
    (getInstanceKey g st v).2.renderedIDs = st.renderedIDs :=
  keyFromPlan_renderedIDs st _

theorem findRootSt_renderedIDs (st : DState) (k : CKey) :
    (findRootSt st k).2.renderedIDs = st.renderedIDs := rfl

theorem rbudget_congr {st st' : DState} (root : CKey)
    (h : st'.renderedIDs = st.renderedIDs) :
    rbudget root st' = rbudget root st := by
  unfold rbudget
  rw [h]

theorem renderDispatch_parts (g : Graph) (st : DState) (v : Option NodeId)
    (level : Nat) (root : CKey) :
    countId root (renderDispatch g st v level).1 = 0 ∧
    (renderDispatch g st v level).2.1 = st ∧
    ∀ w ∈ (renderDispatch g st v level).2.2, WOk root w = true := by
  unfold renderDispatch
  split
  · exact ⟨rfl, rfl, fun w hw => absurd hw (List.not_mem_nil w)⟩
  · split <;> refine ⟨rfl, rfl, ?_⟩ <;> intro w hw <;>
      first
        | exact absurd hw (List.not_mem_nil w)
        | (have h1 := List.mem_singleton.1 hw
           subst h1
           rfl)
        | (rcases List.mem_append.1 hw with h1 | h1
           · obtain ⟨x, -, h2⟩ := List.mem_map.1 h1
             subst h2
             rfl
           · have h2 := List.mem_singleton.1 h1
             subst h2
             rfl)

theorem renderRefCheck_budget (g : Graph) (st : DState) (v : Option NodeId)
    (root : CKey) :
    countId root (renderRefCheck g st v).2.1 +
      rbudget root (renderRefCheck g st v).2.2 ≤ rbudget root st := by
  unfold renderRefCheck
  cases hraw : getRawKey g st v with
  | mk ork sta =>
    have hsta : sta.renderedIDs = st.renderedIDs := by
      have h := getRawKey_renderedIDs g st v
      rw [hraw] at h
      exact h
    cases ork with
    | none =>
      simp only [hraw]
      simp [countId, rbudget_congr root hsta]
    | some rawKey =>
      simp only [hraw]
      have hstb : (findRootSt sta rawKey).2.renderedIDs = st.renderedIDs := by
        rw [findRootSt_renderedIDs]
        exact hsta
      cases hid : lookupA (findRootSt sta rawKey).2.referenceIDs
          (findRootSt sta rawKey).1 with
      | none =>
        simp only [hid]
        simp [countId, rbudget_congr root hstb]
      | some id =>
        simp only [hid]
        have hstc : (getInstanceKey g (findRootSt sta rawKey).2 v).2.renderedIDs
            = st.renderedIDs := by
          rw [getInstanceKey_renderedIDs]
          exact hstb
        split
        · split
          · simp [countId, isIdFor, rbudget_congr root hstc]
          · next hfl =>
            by_cases hrr : (findRootSt sta rawKey).1 = root
            · rw [hrr] at hfl ⊢
              have h1 : lookupA (setA (getInstanceKey g (findRootSt sta rawKey).2
                    v).2.renderedIDs root true) root = some true :=
                lookupA_setA_self _ _ _
              have h2 : (lookupA st.renderedIDs root).getD false = false := by
                rw [← hstc]
                simpa using hfl
              simp [countId, isIdFor, rbudget, h1, h2]
            · have h1 : lookupA (setA (getInstanceKey g (findRootSt sta rawKey).2
                    v).2.renderedIDs (findRootSt sta rawKey).1 true) root
                  = lookupA st.renderedIDs root := by
                rw [lookupA_setA_ne _ _ _ _ (Ne.symm hrr), hstc]
              simp [countId, isIdFor, hrr, rbudget, h1]
        · simp [countId, isIdFor, rbudget_congr root hstc]

theorem renderStep_budget (g : Graph) (cfg : Config) (st : DState)
    (root : CKey) (w : WItem) (hw : WOk root w = true) :
    countId root (renderStep g cfg st w).1 +
        rbudget root (renderStep g cfg st w).2.1 ≤ rbudget root st ∧
      ∀ w' ∈ (renderStep g cfg st w).2.2, WOk root w' = true := by
  cases w with
  | tok e =>
    have he : isIdFor root e = false := by
      unfold WOk at hw
      simpa using hw
    refine ⟨?_, fun w' hw' => absurd hw' (List.not_mem_nil w')⟩
    show countId root [e] + rbudget root st ≤ rbudget root st
    simp [countId, he]
  | sfield v level =>
    simp only [renderStep]
    split
    · cases hraw : getRawKey g st v with
      | mk ork sta =>
        have hsta : sta.renderedIDs = st.renderedIDs := by
          have h := getRawKey_renderedIDs g st v
          rw [hraw] at h
          exact h
        cases ork with
        | none =>
          simp only [hraw]
          refine ⟨by simp [countId, rbudget_congr root hsta], ?_⟩
          intro w' hw'
          have h1 := List.mem_singleton.1 hw'
          subst h1
          rfl
        | some rawKey =>
          simp only [hraw]
          have hstb : (findRootSt sta rawKey).2.renderedIDs = st.renderedIDs := by
            rw [findRootSt_renderedIDs]
            exact hsta
          cases hid : lookupA (findRootSt sta rawKey).2.referenceIDs
              (findRootSt sta rawKey).1 with
          | none =>
            simp only [hid]
            refine ⟨by simp [countId, rbudget_congr root hstb], ?_⟩
            intro w' hw'
            have h1 := List.mem_singleton.1 hw'
            subst h1
            rfl
          | some id =>
            simp only [hid]
            cases hdp : lookupA (findRootSt sta rawKey).2.definitionPoints
                (findRootSt sta rawKey).1 with
            | none =>
              simp only [hdp]
              refine ⟨by simp [countId, rbudget_congr root hstb], ?_⟩
              intro w' hw'
              have h1 := List.mem_singleton.1 hw'
              subst h1
              rfl
            | some defp =>
              simp only [hdp]
              split
              · exact ⟨by simp [countId, isIdFor, rbudget_congr root hstb],
                  fun w' hw' => absurd hw' (List.not_mem_nil w')⟩
              · refine ⟨by simp [countId, rbudget_congr root hstb], ?_⟩
                intro w' hw'
                have h1 := List.mem_singleton.1 hw'
                subst h1
                rfl
    · refine ⟨by simp [countId], ?_⟩
      intro w' hw'
      have h1 := List.mem_singleton.1 hw'
      subst h1
      rfl
  | rval v level skip =>
    simp only [renderStep]
    split
    · exact ⟨by simp [countId, isIdFor], fun w' hw' => absurd hw' (List.not_mem_nil w')⟩
    split
    · exact ⟨by simp [countId, isIdFor], fun w' hw' => absurd hw' (List.not_mem_nil w')⟩
    split
    · exact ⟨by simp [countId, isIdFor], fun w' hw' => absurd hw' (List.not_mem_nil w')⟩
    split
    · split
      · exact ⟨renderRefCheck_budget g st v root,
          fun w' hw' => absurd hw' (List.not_mem_nil w')⟩
      · have hd := renderDispatch_parts g (renderRefCheck g st v).2.2 v level root
        refine ⟨?_, hd.2.2⟩
        rw [countId_append, hd.1, hd.2.1]
        have h := renderRefCheck_budget g st v root
        omega
    split
    · cases hvp : getValPtr g v with
      | some a =>
        simp only [hvp]
        split
        · exact ⟨by simp [countId, isIdFor], fun w' hw' => absurd hw' (List.not_mem_nil w')⟩
        · have hd := renderDispatch_parts g
            { st with visitedPointers := a :: st.visitedPointers } v level root
          refine ⟨?_, hd.2.2⟩
          rw [hd.1, hd.2.1]
          have h : rbudget root { st with visitedPointers := a :: st.visitedPointers }
              = rbudget root st := rbudget_congr root rfl
          rw [h]
          omega
      | none =>
        simp only [hvp]
        have hd := renderDispatch_parts g st v level root
        refine ⟨?_, hd.2.2⟩
        rw [hd.1, hd.2.1]
        omega
    · have hd := renderDispatch_parts g st v level root
      refine ⟨?_, hd.2.2⟩
      rw [hd.1, hd.2.1]
      omega

theorem renderGo_budget (g : Graph) (cfg : Config) (root : CKey) :
    ∀ fuel (st : DState) (ws : List WItem), (∀ w ∈ ws, WOk root w = true) →
      countId root (renderGo g cfg fuel st ws).1 +
        rbudget root (renderGo g cfg fuel st ws).2 ≤ rbudget root st := by
  intro fuel
  induction fuel with
  | zero =>
    intro st ws _
    simp [renderGo, countId, isIdFor]
  | succ fuel ih =>
    intro st ws hws
    cases ws with
    | nil => simp [renderGo, countId]
    | cons w rest =>
      have hw := hws w (List.mem_cons_self w rest)
      have hstep := renderStep_budget g cfg st root w hw
      have hitems : ∀ w' ∈ (renderStep g cfg st w).2.2 ++ rest,
          WOk root w' = true := by
        intro w' h
        rcases List.mem_append.1 h with h | h
        · exact hstep.2 w' h
        · exact hws w' (List.mem_cons_of_mem w h)
      have hih := ih (renderStep g cfg st w).2.1
        ((renderStep g cfg st w).2.2 ++ rest) hitems
      have hun : renderGo g cfg (fuel + 1) st (w :: rest) =
          ((renderStep g cfg st w).1 ++
              (renderGo g cfg fuel (renderStep g cfg st w).2.1
                ((renderStep g cfg st w).2.2 ++ rest)).1,
            (renderGo g cfg fuel (renderStep g cfg st w).2.1
              ((renderStep g cfg st w).2.2 ++ rest)).2) := rfl
      rw [hun]
      simp only [countId_append]
      have h1 := hstep.1
      omega

theorem renderRefCheck_cases (g : Graph) (st : DState) (v : Option NodeId)
    (root rk ik : CKey) (id : String) (dp : DefPoint) (sta stb stc : DState)
    (hraw : getRawKey g st v = (some rk, sta))
    (hroot : findRootSt sta rk = (root, stb))
    (hid : lookupA stb.referenceIDs root = some id)
    (hdp : lookupA stb.definitionPoints root = some dp)
    (hik : getInstanceKey g stb v = (some ik, stc)) :
    renderRefCheck g st v =
      if ik = dp.instanceKey then
        if (lookupA stc.renderedIDs root).getD false then
          (true, [.backref root id], stc)
        else (false, [.idLabel root id],
          { stc with renderedIDs := setA stc.renderedIDs root true })
      else (true, [.backref root id], stc) := by
  unfold renderRefCheck
  simp only [hraw, hroot, hid, hdp, hik]
  by_cases hc : ik = dp.instanceKey
  · simp [hc]
  · have hc' : ¬(dp.instanceKey = ik) := fun h => hc h.symm
    simp [hc, hc']

/-- The struct type of the self-reference example: `type S struct \x7b P *S \x7d`. -/
def sTy8 : GoType := ⟨"main.S", 8⟩

/-- A self-referential value: a struct at address 100 whose single field is
a pointer back to the struct itself. -/
def gCycle : Graph := ⟨[
  ⟨sTy8, true, 100, true, .struct_ [1]⟩,
  ⟨⟨"*main.S", 8⟩, true, 100, true, .ptr (some 0)⟩]⟩

/-- The analysis state of `gCycle` after the full reference pass. -/
def stC8 : DState := (analyzeWithOccs gCycle 16 [some 0] DState.empty).2

/-- The canonical root of the self-referential struct. -/
def cyRoot : CKey := ⟨100, sTy8⟩

/-- The recorded definition point of `cyRoot`: the struct occurrence
itself, at depth 0, not through a pointer. -/
def dpC8 : DefPoint := ⟨cyRoot, false, 0, 0, sTy8⟩

/-- State after the raw-key derivation of the root occurrence. -/
def staC8 : DState := (getRawKey gCycle stC8 (some 0)).2

/-- State after the union-find root lookup. -/
def stbC8 : DState := (findRootSt staC8 cyRoot).2

/-- State after the instance-key derivation. -/
def stcC8 : DState := (getInstanceKey gCycle stbC8 (some 0)).2

/-- `stcC8` with the rendered flag of `cyRoot` set. -/
def stC8r : DState := { stcC8 with renderedIDs := setA stcC8.renderedIDs cyRoot true }

set_option maxHeartbeats 4000000 in
/-- C8: when the rendering engine reaches an occurrence whose canonical
root has a reference ID, exactly three behaviours are possible.  At the
stored definition point with the rendered flag unset it prints the ID
label, descends into the full value, and sets the flag; at the definition
point with the flag already set it prints only a back-reference; away from
the definition point it prints only a back-reference and pushes no further
work.  Consequently any rendering run emits the ID label of a root at most
once, and on the concrete self-referential struct `gCycle` the render
terminates (no fuel-out event): the cycle-closing edge is printed as a
back-reference between the opening and closing brackets. -/
theorem renderValue_definition_point_once
    (g : Graph) (cfg : Config) (st : DState) (v : Option NodeId) (level : Nat)
    (root rk ik : CKey) (id : String) (dp : DefPoint) (sta stb stc : DState)
    (htrack : cfg.trackReferences = true)
    (hlev : ¬ level > cfg.maxDepth)
    (hvalid : isValidV g v = true)
    (hnil : isNilV g v = false)
    (hraw : getRawKey g st v = (some rk, sta))
    (hroot : findRootSt sta rk = (root, stb))
    (hid : lookupA stb.referenceIDs root = some id)
    (hdp : lookupA stb.definitionPoints root = some dp)
    (hik : getInstanceKey g stb v = (some ik, stc)) :
    (ik = dp.instanceKey → (lookupA stc.renderedIDs root).getD false = false →
      renderStep g cfg st (.rval v level false) =
        (REvent.idLabel root id ::
            (renderDispatch g
              { stc with renderedIDs := setA stc.renderedIDs root true } v level).1,
          (renderDispatch g
            { stc with renderedIDs := setA stc.renderedIDs root true } v level).2)) ∧
    (ik = dp.instanceKey → (lookupA stc.renderedIDs root).getD false = true →
      renderStep g cfg st (.rval v level false) = ([.backref root id], stc, [])) ∧
    (ik ≠ dp.instanceKey →
      renderStep g cfg st (.rval v level false) = ([.backref root id], stc, [])) ∧
    (∀ fuel (st0 : DState) (v0 : Option NodeId),
      countId root (renderValue g cfg fuel st0 v0).1 ≤ 1) ∧
    (renderValue gCycle ⟨15, true⟩ 10 stC8 (some 0)).1 =
      [.idLabel cyRoot "&1", .openC .struct_,
        .backref cyRoot "&1", .closeC .struct_] := by
  have hrc := renderRefCheck_cases g st v root rk ik id dp sta stb stc
    hraw hroot hid hdp hik
  have hstep : renderStep g cfg st (.rval v level false) =
      (if (renderRefCheck g st v).1 then
        ((renderRefCheck g st v).2.1, (renderRefCheck g st v).2.2, ([] : List WItem))
      else
        ((renderRefCheck g st v).2.1 ++
            (renderDispatch g (renderRefCheck g st v).2.2 v level).1,
          (renderDispatch g (renderRefCheck g st v).2.2 v level).2)) := by
    simp only [renderStep]
    rw [if_neg hlev]
    simp [hvalid, hnil, htrack]
  refine ⟨?_, ?_, ?_, ?_, ?_⟩
  · intro h1 h2
    rw [hstep, hrc, if_pos h1]
    simp [h2]
  · intro h1 h2
    rw [hstep, hrc, if_pos h1]
    simp [h2]
  · intro h1
    rw [hstep, hrc, if_neg h1]
    simp
  · intro fuel st0 v0
    have h := renderGo_budget g cfg root fuel st0 [.rval v0 0 false]
      (by
        intro w hw
        have h1 := List.mem_singleton.1 hw
        subst h1
        rfl)
    have hb : rbudget root st0 ≤ 1 := by
      unfold rbudget
      split
      · omega
      · omega
    show countId root (renderGo g cfg fuel st0 [.rval v0 0 false]).1 ≤ 1
    omega
  · decide

set_option maxHeartbeats 4000000 in
/-- Witness for C8: on `gCycle` the root occurrence is the definition
point with the flag unset, so the step prints the ID label and descends;
and the full render of the cycle emits that label at most once. -/
theorem renderValue_definition_point_once_witness :
    renderStep gCycle ⟨15, true⟩ stC8 (.rval (some 0) 0 false) =
      (REvent.idLabel cyRoot "&1" ::
          (renderDispatch gCycle stC8r (some 0) 0).1,
        (renderDispatch gCycle stC8r (some 0) 0).2) ∧
    countId cyRoot (renderValue gCycle ⟨15, true⟩ 10 stC8 (some 0)).1 ≤ 1 := by
  have hraw : getRawKey gCycle stC8 (some 0) = (some cyRoot, staC8) := by
    have h1 : (getRawKey gCycle stC8 (some 0)).1 = some cyRoot := by decide
    calc getRawKey gCycle stC8 (some 0)
        = ((getRawKey gCycle stC8 (some 0)).1,
            (getRawKey gCycle stC8 (some 0)).2) := rfl
      _ = (some cyRoot, staC8) := by
          rw [h1]
          rfl
  have hroot : findRootSt staC8 cyRoot = (cyRoot, stbC8) := by
    have h1 : (findRootSt staC8 cyRoot).1 = cyRoot := by decide
    calc findRootSt staC8 cyRoot
        = ((findRootSt staC8 cyRoot).1, (findRootSt staC8 cyRoot).2) := rfl
      _ = (cyRoot, stbC8) := by
          rw [h1]
          rfl
  have hik : getInstanceKey gCycle stbC8 (some 0) = (some cyRoot, stcC8) := by
    have h1 : (getInstanceKey gCycle stbC8 (some 0)).1 = some cyRoot := by decide
    calc getInstanceKey gCycle stbC8 (some 0)
        = ((getInstanceKey gCycle stbC8 (some 0)).1,
            (getInstanceKey gCycle stbC8 (some 0)).2) := rfl
      _ = (some cyRoot, stcC8) := by
          rw [h1]
          rfl
  have h := renderValue_definition_point_once gCycle ⟨15, true⟩ stC8 (some 0) 0
    cyRoot cyRoot cyRoot "&1" dpC8 staC8 stbC8 stcC8
    rfl (by decide) (by decide) (by decide) hraw hroot (by decide) (by decide) hik
  exact ⟨h.1 rfl (by decide), h.2.2.2.1 10 stC8 (some 0)⟩

end Govar
